import Mathlib

/-! XORNG room server: a shallow embedding of `server/server.js`.

The multiplayer tic-tac-toe server keeps a registry of rooms, a sticky-identity
table and one session per WebSocket connection.  Every pure helper of the
JavaScript source becomes a Lean function of the same name; the `message` and
`close` handlers become functions from a server state to a new state plus the
list of messages sent.  The outcome of every `Math.random()` and `Date.now()`
call is an explicit argument (a record `Rand`).

JavaScript built-ins whose code is not part of the repository
(`String.prototype.toLowerCase`, `toUpperCase`, the white-space test behind
`trim`, `localeCompare`) are taken as parameters, bundled in `StrLib`.

A JavaScript string is a Lean `String`, one `Char` for each UTF-16 code unit;
a `Map` is the list of its entries in insertion order; a connection object
`ws` is a natural number, its fields being kept in the server state.
-/

namespace Xorng

/-! ## Game engine -/

/-- A seat symbol: the JavaScript strings `"X"` and `"O"`. -/
inductive Sym where
  | X
  | O
  deriving DecidableEq, Repr

/-- A board cell, or a nullable symbol: `none` is the empty string `""` of a
cell, and `null` of a player's symbol or of `getWinner`. -/
abbrev Cell := Option Sym

/-- The board, `string[9]`: nine cells indexed `0..8`. -/
abbrev Board := Fin 9 → Cell

/-- An index triple of the board. -/
abbrev Line := Fin 9 × Fin 9 × Fin 9

/-- The constant `lines` of `getWinner` and `getWinningLine`. -/
def lines : List Line :=
  [(0, 1, 2), (3, 4, 5), (6, 7, 8),
   (0, 3, 6), (1, 4, 7), (2, 5, 8),
   (0, 4, 8), (2, 4, 6)]

/-- The test `b[a] && b[a] === b[c] && b[a] === b[d]`. -/
def lineHit (b : Board) (l : Line) : Bool :=
  (b l.1).isSome && (b l.1 == b l.2.1) && (b l.1 == b l.2.2)

/-- The `for (const [a,c,d] of lines)` loop of `getWinner`. -/
def getWinnerLoop (b : Board) : List Line → Option Sym
  | [] => none
  | l :: rest => if lineHit b l then b l.1 else getWinnerLoop b rest

/-- The function `getWinner(b)` of `server.js` and `util/ttt.js`. -/
def getWinner (b : Board) : Option Sym :=
  getWinnerLoop b lines

/-- The `for (const line of lines)` loop of `getWinningLine`. -/
def getWinningLineLoop (b : Board) : List Line → Option Line
  | [] => none
  | l :: rest => if lineHit b l then some l else getWinningLineLoop b rest

/-- The function `getWinningLine(b)` of `util/ttt.js`. -/
def getWinningLine (b : Board) : Option Line :=
  getWinningLineLoop b lines

/-- The function `isBoardFull(b)`: `b.every(v => v !== "")`. -/
def isBoardFull (b : Board) : Bool :=
  (List.finRange 9).all fun i => (b i).isSome

/-- The function `randomMark()`, on the outcome `r` of `Math.floor(Math.random() * 3)`. -/
def randomMark (r : Nat) : Cell :=
  if r % 3 = 0 then some Sym.X else if r % 3 = 1 then some Sym.O else none

/-- The swap `[arr[i], arr[j]] = [arr[j], arr[i]]`. -/
def swap {α : Type} (arr : List α) (i j : Nat) : List α :=
  match arr.get? i, arr.get? j with
  | some x, some y => (arr.set i y).set j x
  | _, _ => arr

/-- The loop of `shuffle`, for `i` from `n` down to `1`; `rnd i` is the outcome
of `Math.random()` at step `i`, read as the index `rnd i % (i + 1)`. -/
def shuffleLoop {α : Type} (rnd : Nat → Nat) : Nat → List α → List α
  | 0, arr => arr
  | i + 1, arr => shuffleLoop rnd i (swap arr (i + 1) (rnd (i + 1) % (i + 2)))

/-- The function `shuffle(arr)`: Fisher-Yates, from the last index down. -/
def shuffle {α : Type} (arr : List α) (rnd : Nat → Nat) : List α :=
  shuffleLoop rnd (arr.length - 1) arr

/-! ## JavaScript collections and strings -/

/-- A JavaScript `Map`, as the list of its entries in insertion order. -/
abbrev JsMap (κ α : Type) := List (κ × α)

namespace JsMap

variable {κ α : Type} [DecidableEq κ]

/-- The call `m.get(k)`; `none` is `undefined`. -/
def get : JsMap κ α → κ → Option α
  | [], _ => none
  | (k', v) :: rest, k => if k' = k then some v else get rest k

/-- The call `m.has(k)`. -/
def has (m : JsMap κ α) (k : κ) : Bool :=
  (get m k).isSome

/-- The call `m.set(k, v)`: an existing key keeps its place, a new one goes last. -/
def set : JsMap κ α → κ → α → JsMap κ α
  | [], k, v => [(k, v)]
  | (k', v') :: rest, k, v =>
    if k' = k then (k, v) :: rest else (k', v') :: set rest k v

/-- The call `m.delete(k)`. -/
def delete (m : JsMap κ α) (k : κ) : JsMap κ α :=
  m.filter fun e => decide (e.1 ≠ k)

/-- The spread `[...m.values()]`. -/
def values (m : JsMap κ α) : List α :=
  m.map Prod.snd

/-- An in-place update of the object stored under `k` (a mutation through a
reference obtained from `m.get(k)`). -/
def modify (m : JsMap κ α) (k : κ) (f : α → α) : JsMap κ α :=
  match get m k with
  | some v => set m k (f v)
  | none => m

end JsMap

/-- The call `set.add(x)` on a JavaScript `Set`, kept in insertion order. -/
def setAdd (xs : List Nat) (x : Nat) : List Nat :=
  if x ∈ xs then xs else xs ++ [x]

/-- The call `set.delete(x)` on a JavaScript `Set`. -/
def setDelete (xs : List Nat) (x : Nat) : List Nat :=
  xs.filter fun y => decide (y ≠ x)

/-- The string built-ins of the JavaScript runtime that the server calls. -/
structure StrLib where
  /-- The method `String.prototype.toLowerCase`. -/
  toLowerCase : String → String
  /-- The method `String.prototype.toUpperCase`. -/
  toUpperCase : String → String
  /-- The characters `String.prototype.trim` removes. -/
  isWhiteSpace : Char → Bool
  /-- The method `String.prototype.localeCompare`. -/
  localeCompare : String → String → Int

/-- The call `s.trim()`. -/
def trim (lib : StrLib) (s : String) : String :=
  ⟨((s.data.dropWhile lib.isWhiteSpace).reverse.dropWhile lib.isWhiteSpace).reverse⟩

/-- The call `s.slice(0, 16)`: the first 16 characters.  JavaScript counts UTF-16
code units, so this is exact on text of the Basic Multilingual Plane, where a
character is one code unit. -/
def slice16 (s : String) : String :=
  ⟨s.data.take 16⟩

/-- The alphabet `chars` of `makeRoomCode` and `makeShortId`. -/
def idChars : List Char :=
  "ABCDEFGHJKLMNPQRSTUVWXYZ23456789".data

/-- The loop `for (i < n) out += chars[Math.floor(Math.random() * chars.length)]`;
`d i` is the outcome of the draw at step `i`, read as `d i % chars.length`. -/
def randomChars (n : Nat) (d : Nat → Nat) : String :=
  ⟨(List.range n).map fun i => idChars.getD (d i % idChars.length) 'A'⟩

/-- The function `makeRoomCode()`. -/
def makeRoomCode (d : Nat → Nat) : String :=
  randomChars 6 d

/-- The function `makeShortId()`. -/
def makeShortId (d : Nat → Nat) : String :=
  randomChars 4 d

/-! ## Data model -/

/-- A value of `room.players`: `{id, name, symbol}`. -/
structure Player where
  id : String
  name : String
  symbol : Option Sym
  deriving DecidableEq, Repr

/-- A value of `room.spectators`: `{id, name}`. -/
structure Spectator where
  id : String
  name : String
  deriving DecidableEq, Repr

/-- A value of `room.scores`: `{name, wins, losses, draws}`. -/
structure ScoreEntry where
  name : String
  wins : Nat
  losses : Nat
  draws : Nat
  deriving DecidableEq, Repr

/-- The record `room.lastResult`: `{winner, draw}`. -/
structure LastResult where
  winner : Option Sym
  draw : Bool
  deriving DecidableEq, Repr

/-- The record `room.lastMove`: `{index, tick}`. -/
structure LastMove where
  index : Nat
  tick : Nat
  deriving DecidableEq, Repr

/-- The field `room.status`. -/
inductive Status where
  | waiting
  | playing
  | over
  deriving DecidableEq, Repr

/-- A room of the registry; a connection `ws` is named by a natural number. -/
structure Room where
  clients : List Nat
  players : JsMap Nat Player
  spectators : JsMap Nat Spectator
  board : Board
  turn : Sym
  status : Status
  lastResult : Option LastResult
  lastMove : Option LastMove
  scores : JsMap String ScoreEntry

/-- The fields the server keeps on a connection object `ws`. -/
structure Conn where
  id : String
  roomCode : Option String
  name : Option String
  /-- Whether `ws.readyState === WebSocket.OPEN`. -/
  isOpen : Bool
  deriving DecidableEq, Repr

/-- The whole server state: the globals `rooms` and `stickyIdentity`, and the
connection objects. -/
structure Server where
  rooms : JsMap String Room
  stickyIdentity : JsMap String (Option Sym)
  conns : JsMap Nat Conn

/-- The state at server start. -/
def Server.init : Server :=
  { rooms := [], stickyIdentity := [], conns := [] }

/-- The object `roomSnapshot` builds, without its constant `type: "state"`. -/
structure Snapshot where
  roomCode : String
  board : Board
  turn : Sym
  status : Status
  lastResult : Option LastResult
  lastMove : Option LastMove
  players : List Player
  spectators : List Spectator
  scores : List ScoreEntry

/-- A message from the server to a client. -/
inductive ServerMsg where
  | hello (clientId : String)
  | error (message : String)
  | room_created (roomCode : String) (role : String) (name : String)
  | room_joined (roomCode : String) (role : String) (name : String)
  | state (snap : Snapshot)

/-- A parsed message from a client.  `name` stands for `String(msg.name || "")`,
`roomCode` for `String(msg.roomCode || "")`, and `index` for `Number(msg.index)`
when `Number.isInteger` holds of it (`none` otherwise). -/
inductive ClientMsg where
  | invalid
  | create_room (name : String)
  | join_room (roomCode : String) (name : String)
  | reset
  | move (index : Option Int)
  | unknown

/-- The outcomes of the calls to `Math.random()` and `Date.now()` that the
handling of one event may make. -/
structure Rand where
  /-- The draws of `makeShortId` inside `normalizeName`. -/
  nameId : Nat → Nat
  /-- The draws of the successive `makeRoomCode` calls of `createRoom`. -/
  roomCodes : List (Nat → Nat)
  /-- The draws of `makeShortId` at try `tries` of `makeUniqueName`. -/
  suffix : Nat → Nat → Nat
  /-- The value of `Math.random().toString(36).slice(2, 6).toUpperCase()`. -/
  fallback : String
  /-- The draws of `shuffle`. -/
  shuffle : Nat → Nat
  /-- The draw of `randomMark`. -/
  mark : Nat
  /-- The value of `Date.now()`. -/
  tick : Nat
  /-- The value of `Math.random().toString(36).slice(2, 10)` for `ws.id`. -/
  connId : String

/-- An event the server reacts to. -/
inductive Event where
  | connection (ws : Nat)
  | message (ws : Nat) (msg : ClientMsg)
  | close (ws : Nat)

/-! ## Helpers of `server.js` -/

/-- The room `createRoom` stores under a new code. -/
def emptyRoom : Room :=
  { clients := [], players := [], spectators := [], board := fun _ => none,
    turn := Sym.X, status := Status.waiting, lastResult := none, lastMove := none,
    scores := [] }

/-- The function `createRoom()`: its loop
`do code = makeRoomCode(); while (rooms.has(code))` runs over the supplied
draws; `none` when every supplied draw hits an existing code (the loop has not
ended yet). -/
def createRoom (rooms : JsMap String Room) :
    List (Nat → Nat) → Option (String × JsMap String Room)
  | [] => none
  | d :: ds =>
    if JsMap.has rooms (makeRoomCode d) then createRoom rooms ds
    else some (makeRoomCode d, JsMap.set rooms (makeRoomCode d) emptyRoom)

/-- The function `normalizeName(name)`, on `raw = String(name || "")`. -/
def normalizeName (lib : StrLib) (raw : String) (d : Nat → Nat) : String :=
  if trim lib raw = "" then "Player-" ++ makeShortId d
  else if slice16 (trim lib raw) = "" then "Player-" ++ makeShortId d
  else slice16 (trim lib raw)

/-- The function `roomHasName(room, nameLower)`. -/
def roomHasName (lib : StrLib) (room : Room) (nameLower : String) : Bool :=
  (JsMap.values room.players).any (fun p => lib.toLowerCase p.name == nameLower) ||
    (JsMap.values room.spectators).any (fun s => lib.toLowerCase s.name == nameLower)

/-- The candidate of try `tries`: `(base + "-" + makeShortId()).slice(0, 16)`. -/
def candidateName (base : String) (suffix : Nat → Nat → Nat) (tries : Nat) : String :=
  slice16 (base ++ "-" ++ makeShortId (suffix tries))

/-- The `for (tries < 50)` loop of `makeUniqueName`, with `n` tries left; `none`
when the loop ends without returning. -/
def makeUniqueNameLoop (lib : StrLib) (room : Room) (base : String)
    (suffix : Nat → Nat → Nat) : Nat → Nat → Option String
  | 0, _ => none
  | n + 1, tries =>
    if !roomHasName lib room (lib.toLowerCase (candidateName base suffix tries)) then
      some (candidateName base suffix tries)
    else makeUniqueNameLoop lib room base suffix n (tries + 1)

/-- The function `makeUniqueName(room, desiredName)`. -/
def makeUniqueName (lib : StrLib) (room : Room) (desiredName : String) (rnd : Rand) :
    String :=
  if !roomHasName lib room (lib.toLowerCase desiredName) then desiredName
  else
    match makeUniqueNameLoop lib room desiredName rnd.suffix 50 0 with
    | some candidate => candidate
    | none => slice16 (desiredName ++ "-" ++ rnd.fallback)

/-- The function `ensureScore(room, name)`, as its effect on the room. -/
def ensureScore (lib : StrLib) (room : Room) (name : String) : Room :=
  match JsMap.get room.scores (lib.toLowerCase name) with
  | none =>
    { room with
      scores := JsMap.set room.scores (lib.toLowerCase name)
        { name := name, wins := 0, losses := 0, draws := 0 } }
  | some e =>
    { room with
      scores := JsMap.set room.scores (lib.toLowerCase name) { e with name := name } }

/-- The function `assignRandomSymbols(room)`. -/
def assignRandomSymbols (room : Room) (rnd : Nat → Nat) : Room :=
  match room.players with
  | [(w0, p0), (w1, p1)] =>
    { room with
      players :=
        [(w0, { p0 with symbol := (shuffle [Sym.X, Sym.O] rnd).get? 0 }),
         (w1, { p1 with symbol := (shuffle [Sym.X, Sym.O] rnd).get? 1 })]
      turn := Sym.X }
  | _ => room

/-- The statements `s.wins += 1`, `s.losses += 1`, `s.draws += 1`. -/
def addWin (e : ScoreEntry) : ScoreEntry := { e with wins := e.wins + 1 }

/-- See `addWin`. -/
def addLoss (e : ScoreEntry) : ScoreEntry := { e with losses := e.losses + 1 }

/-- See `addWin`. -/
def addDraw (e : ScoreEntry) : ScoreEntry := { e with draws := e.draws + 1 }

/-- The tail of `finalizeScoresOnGameOver`, once `sX` and `sO` are the entries
under the keys `kX` and `kO`. -/
def applyResult (scores : JsMap String ScoreEntry) (kX kO : String) (res : LastResult) :
    JsMap String ScoreEntry :=
  if res.draw then JsMap.modify (JsMap.modify scores kX addDraw) kO addDraw
  else
    match res.winner with
    | some Sym.X => JsMap.modify (JsMap.modify scores kX addWin) kO addLoss
    | some Sym.O => JsMap.modify (JsMap.modify scores kO addWin) kX addLoss
    | none => scores

/-- The function `finalizeScoresOnGameOver(room)`. -/
def finalizeScoresOnGameOver (lib : StrLib) (room : Room) : Room :=
  match room.lastResult with
  | none => room
  | some res =>
    if (JsMap.values room.players).length ≠ 2 then room
    else
      match (JsMap.values room.players).find? (fun p => p.symbol == some Sym.X),
        (JsMap.values room.players).find? (fun p => p.symbol == some Sym.O) with
      | some pX, some pO =>
        let room2 := ensureScore lib (ensureScore lib room pX.name) pO.name
        { room2 with
          scores := applyResult room2.scores (lib.toLowerCase pX.name)
            (lib.toLowerCase pO.name) res }
      | _, _ => room

/-- The comparator of `roomSnapshot`:
`(b.wins - a.wins) || (a.losses - b.losses) || a.name.localeCompare(b.name)`. -/
def scoreCompare (lib : StrLib) (a b : ScoreEntry) : Int :=
  if (b.wins : Int) - a.wins ≠ 0 then (b.wins : Int) - a.wins
  else if (a.losses : Int) - b.losses ≠ 0 then (a.losses : Int) - b.losses
  else lib.localeCompare a.name b.name

/-- The function `roomSnapshot(roomCode)`, on the room stored under the code. -/
def roomSnapshot (lib : StrLib) (roomCode : String) (room : Room) : Snapshot :=
  { roomCode := roomCode
    board := room.board
    turn := room.turn
    status := room.status
    lastResult := room.lastResult
    lastMove := room.lastMove
    players := JsMap.values room.players
    spectators := JsMap.values room.spectators
    scores := (JsMap.values room.scores).insertionSort
      fun a b => scoreCompare lib a b ≤ 0 }

/-- The function `safeSend(ws, obj)`: the messages it puts on the wire. -/
def safeSend (s : Server) (ws : Nat) (obj : ServerMsg) : List (Nat × ServerMsg) :=
  match JsMap.get s.conns ws with
  | some c => if c.isOpen then [(ws, obj)] else []
  | none => []

/-- The function `broadcastRoom(roomCode, roomSnapshot(roomCode))`. -/
def broadcastRoom (lib : StrLib) (s : Server) (roomCode : String) :
    List (Nat × ServerMsg) :=
  match JsMap.get s.rooms roomCode with
  | none => []
  | some room =>
    room.clients.flatMap fun ws =>
      safeSend s ws (ServerMsg.state (roomSnapshot lib roomCode room))

/-- The function `cleanupEmptyRoom(roomCode)`. -/
def cleanupEmptyRoom (s : Server) (roomCode : String) : Server :=
  match JsMap.get s.rooms roomCode with
  | none => s
  | some room =>
    if room.clients.length = 0 then { s with rooms := JsMap.delete s.rooms roomCode }
    else s

/-- The key `roomCode + ":" + name.toLowerCase()` of `stickyIdentity`. -/
def stickyKey (lib : StrLib) (roomCode name : String) : String :=
  roomCode ++ ":" ++ lib.toLowerCase name

/-- The loop `for (const p of room.players.values()) stickyIdentity.set(k, {symbol})`. -/
def setSticky (lib : StrLib) (roomCode : String) (sticky : JsMap String (Option Sym))
    (players : List Player) : JsMap String (Option Sym) :=
  players.foldl (fun st p => JsMap.set st (stickyKey lib roomCode p.name) p.symbol) sticky

/-- The guards `!Number.isInteger(idx) || idx < 0 || idx > 8` of a move: the
cell index when they all pass. -/
def boardIndex : Option Int → Option (Fin 9)
  | none => none
  | some idx => if idx < 0 ∨ idx > 8 then none else some (Fin.ofNat idx.toNat)

/-! ## The handlers -/

/-- The result of handling an event: the new state and the messages sent, each
with the connection it goes to. -/
abbrev Outcome := Server × List (Nat × ServerMsg)

/-- The `create_room` branch of the message handler; `me` is the state of `ws`. -/
def handleCreateRoom (lib : StrLib) (s : Server) (ws : Nat) (me : Conn) (name : String)
    (rnd : Rand) : Option Outcome :=
  match createRoom s.rooms rnd.roomCodes with
  | none => none
  | some (roomCode, rooms1) =>
    match JsMap.get rooms1 roomCode with
    | none => none
    | some room =>
      let uniqueName := makeUniqueName lib room (normalizeName lib name rnd.nameId) rnd
      let room1 : Room :=
        { room with
          clients := setAdd room.clients ws
          players := JsMap.set room.players ws
            { id := me.id, name := uniqueName, symbol := none } }
      let room2 : Room :=
        { ensureScore lib room1 uniqueName with
          status := Status.waiting, lastResult := none, lastMove := none }
      let s1 : Server :=
        { rooms := JsMap.set rooms1 roomCode room2
          stickyIdentity := s.stickyIdentity
          conns := JsMap.set s.conns ws
            { me with roomCode := some roomCode, name := some uniqueName } }
      some (s1, safeSend s1 ws (ServerMsg.room_created roomCode "player" uniqueName) ++
        broadcastRoom lib s1 roomCode)

/-- The expression `sticky?.symbol ?? null`, on `sticky = stickyIdentity.get(key)`. -/
def stickySymbol : Option (Option Sym) → Option Sym
  | some symbol => symbol
  | none => none

/-- The part of `join_room` that seats the requester, when `room.players.size < 2`:
the new room and sticky table. -/
def seatPlayer (lib : StrLib) (s : Server) (ws : Nat) (me : Conn) (roomCode : String)
    (room : Room) (uniqueName : String) (rnd : Rand) :
    Room × JsMap String (Option Sym) :=
  let room1 : Room :=
    { room with
      players := JsMap.set room.players ws
        { id := me.id, name := uniqueName,
          symbol := stickySymbol
            (JsMap.get s.stickyIdentity (stickyKey lib roomCode uniqueName)) } }
  if room1.players.length = 2 then
    let room2 : Room :=
      if !(JsMap.values room1.players).all
          (fun p => p.symbol == some Sym.X || p.symbol == some Sym.O) then
        assignRandomSymbols room1 rnd.shuffle
      else room1
    ({ room2 with status := Status.playing, lastResult := none, lastMove := none },
      setSticky lib roomCode s.stickyIdentity (JsMap.values room2.players))
  else ({ room1 with status := Status.waiting }, s.stickyIdentity)

/-- The `join_room` branch of the message handler. -/
def handleJoinRoom (lib : StrLib) (s : Server) (ws : Nat) (me : Conn)
    (rawCode name : String) (rnd : Rand) : Option Outcome :=
  let roomCode := trim lib (lib.toUpperCase rawCode)
  match JsMap.get s.rooms roomCode with
  | none => some (s, safeSend s ws (ServerMsg.error "Room not found"))
  | some room =>
    let uniqueName := makeUniqueName lib room (normalizeName lib name rnd.nameId) rnd
    let conns := JsMap.set s.conns ws
      { me with roomCode := some roomCode, name := some uniqueName }
    let room1 : Room :=
      ensureScore lib { room with clients := setAdd room.clients ws } uniqueName
    if room1.players.length < 2 then
      let seated := seatPlayer lib s ws me roomCode room1 uniqueName rnd
      let s1 : Server :=
        { rooms := JsMap.set s.rooms roomCode seated.1
          stickyIdentity := seated.2
          conns := conns }
      some (s1, safeSend s1 ws (ServerMsg.room_joined roomCode "player" uniqueName) ++
        broadcastRoom lib s1 roomCode)
    else
      let room2 : Room :=
        { room1 with
          spectators := JsMap.set room1.spectators ws { id := me.id, name := uniqueName } }
      let s1 : Server :=
        { rooms := JsMap.set s.rooms roomCode room2
          stickyIdentity := s.stickyIdentity
          conns := conns }
      some (s1, safeSend s1 ws (ServerMsg.room_joined roomCode "spectator" uniqueName) ++
        broadcastRoom lib s1 roomCode)

/-- The `reset` branch of the message handler, on the room of `ws`. -/
def handleReset (lib : StrLib) (s : Server) (ws : Nat) (roomCode : String) (room : Room)
    (rnd : Rand) : Option Outcome :=
  if !JsMap.has room.players ws then some (s, [])
  else
    let room1 : Room :=
      { room with board := fun _ => none, lastResult := none, lastMove := none }
    if room1.players.length = 2 then
      let room2 := assignRandomSymbols room1 rnd.shuffle
      let s1 : Server :=
        { s with
          rooms := JsMap.set s.rooms roomCode { room2 with status := Status.playing }
          stickyIdentity :=
            setSticky lib roomCode s.stickyIdentity (JsMap.values room2.players) }
      some (s1, broadcastRoom lib s1 roomCode)
    else
      let s1 : Server :=
        { s with
          rooms := JsMap.set s.rooms roomCode
            { room1 with status := Status.waiting, turn := Sym.X } }
      some (s1, broadcastRoom lib s1 roomCode)

/-- The statement `room.turn = room.turn === "X" ? "O" : "X"`. -/
def flipTurn (t : Sym) : Sym :=
  if t = Sym.X then Sym.O else Sym.X

/-- The effect of an accepted move on the room: the cell is written, `lastMove`
recorded, and the outcome settled. -/
def applyMove (lib : StrLib) (room : Room) (idx : Fin 9) (rnd : Rand) : Room :=
  let room1 : Room :=
    { room with
      board := Function.update room.board idx (randomMark rnd.mark)
      lastMove := some { index := idx.val, tick := rnd.tick } }
  match getWinner room1.board with
  | some winner =>
    finalizeScoresOnGameOver lib
      { room1 with
        status := Status.over
        lastResult := some { winner := some winner, draw := false } }
  | none =>
    if isBoardFull room1.board then
      finalizeScoresOnGameOver lib
        { room1 with
          status := Status.over
          lastResult := some { winner := none, draw := true } }
    else { room1 with turn := flipTurn room1.turn }

/-- The `move` branch of the message handler, on the room of `ws`. -/
def handleMove (lib : StrLib) (s : Server) (ws : Nat) (roomCode : String) (room : Room)
    (index : Option Int) (rnd : Rand) : Option Outcome :=
  if room.status ≠ Status.playing then some (s, [])
  else
    match JsMap.get room.players ws with
    | none => some (s, [])
    | some me =>
      if me.symbol ≠ some room.turn then some (s, [])
      else
        match boardIndex index with
        | none => some (s, [])
        | some idx =>
          if room.board idx ≠ none then some (s, [])
          else
            let s1 : Server :=
              { s with rooms := JsMap.set s.rooms roomCode (applyMove lib room idx rnd) }
            some (s1, broadcastRoom lib s1 roomCode)

/-- The test `!ws.roomCode`. -/
def noRoomCode : Option String → Bool
  | none => true
  | some c => c == ""

/-- The `message` handler of a connection `ws` whose state is `me`. -/
def handleMessage (lib : StrLib) (s : Server) (ws : Nat) (me : Conn) (msg : ClientMsg)
    (rnd : Rand) : Option Outcome :=
  match msg with
  | ClientMsg.invalid => some (s, safeSend s ws (ServerMsg.error "Invalid JSON"))
  | ClientMsg.create_room name => handleCreateRoom lib s ws me name rnd
  | ClientMsg.join_room rawCode name => handleJoinRoom lib s ws me rawCode name rnd
  | other =>
    if noRoomCode me.roomCode then
      some (s, safeSend s ws (ServerMsg.error "Not in a room"))
    else
      match JsMap.get s.rooms (me.roomCode.getD "") with
      | none => some (s, safeSend s ws (ServerMsg.error "Room missing"))
      | some room =>
        match other with
        | ClientMsg.reset => handleReset lib s ws (me.roomCode.getD "") room rnd
        | ClientMsg.move index => handleMove lib s ws (me.roomCode.getD "") room index rnd
        | _ => some (s, safeSend s ws (ServerMsg.error "Unknown message type"))

/-- The `close` handler of a connection `ws` whose state is `me`; the
connection is no longer open when it runs. -/
def handleClose (lib : StrLib) (s : Server) (ws : Nat) (me : Conn) : Option Outcome :=
  let s0 : Server := { s with conns := JsMap.set s.conns ws { me with isOpen := false } }
  if noRoomCode me.roomCode then some (s0, [])
  else
    match JsMap.get s0.rooms (me.roomCode.getD "") with
    | none => some (s0, [])
    | some room =>
      let room1 : Room :=
        { room with
          clients := setDelete room.clients ws
          players := JsMap.delete room.players ws
          spectators := JsMap.delete room.spectators ws }
      let room2 : Room :=
        { room1 with
          status := if room1.players.length = 2 then Status.playing else Status.waiting }
      let s1 : Server := { s0 with rooms := JsMap.set s0.rooms (me.roomCode.getD "") room2 }
      some (cleanupEmptyRoom s1 (me.roomCode.getD ""),
        broadcastRoom lib s1 (me.roomCode.getD ""))

/-- The `connection` handler: a new connection object, greeted with `hello`. -/
def handleConnection (s : Server) (ws : Nat) (rnd : Rand) : Option Outcome :=
  let s1 : Server :=
    { s with
      conns := JsMap.set s.conns ws
        { id := rnd.connId, roomCode := none, name := none, isOpen := true } }
  some (s1, safeSend s1 ws (ServerMsg.hello rnd.connId))

/-- One event of the server.  `none`: the event cannot happen in this state (a
connection object that already exists, a message or close on a connection that
is not open) or its handling has not returned (see `createRoom`). -/
def step (lib : StrLib) (s : Server) (e : Event) (rnd : Rand) : Option Outcome :=
  match e with
  | Event.connection ws =>
    if JsMap.has s.conns ws then none else handleConnection s ws rnd
  | Event.message ws msg =>
    match JsMap.get s.conns ws with
    | none => none
    | some me => if me.isOpen then handleMessage lib s ws me msg rnd else none
  | Event.close ws =>
    match JsMap.get s.conns ws with
    | none => none
    | some me => if me.isOpen then handleClose lib s ws me else none

/-- A run of the server from state `s` over a list of events with their random
outcomes. -/
def run (lib : StrLib) : Server → List (Event × Rand) → Option Server
  | s, [] => some s
  | s, (e, rnd) :: rest =>
    match step lib s e rnd with
    | none => none
    | some (s1, _) => run lib s1 rest

/-- The states reachable from server start. -/
inductive Reachable (lib : StrLib) : Server → Prop where
  | init : Reachable lib Server.init
  | step {s s1 : Server} {e : Event} {rnd : Rand} {out : List (Nat × ServerMsg)} :
    Reachable lib s → step lib s e rnd = some (s1, out) → Reachable lib s1

/-! ## Concrete inputs used by the examples -/

/-- The white space and line terminators that `String.prototype.trim` removes:
tab, line feed, vertical tab, form feed, carriage return, the byte order mark,
the line and paragraph separators and the Unicode space separators. -/
def jsWhiteSpace (c : Char) : Bool :=
  [9, 10, 11, 12, 13, 32, 160, 5760, 8232, 8233, 8239, 8287, 12288, 65279].contains
      c.toNat ||
    (decide (8192 ≤ c.toNat) && decide (c.toNat ≤ 8202))

/-- An instance of the string built-ins for the examples, which are ASCII text:
the case mappings and the order of `localeCompare` are those of ASCII, the
white space is that of `trim`. -/
def asciiLib : StrLib :=
  { toLowerCase := fun s => ⟨s.data.map Char.toLower⟩
    toUpperCase := fun s => ⟨s.data.map Char.toUpper⟩
    isWhiteSpace := jsWhiteSpace
    localeCompare := fun a b => if a < b then -1 else if a = b then 0 else 1 }

/-- Random outcomes in which every draw is `0`. -/
def rand0 : Rand :=
  { nameId := fun _ => 0, roomCodes := [fun _ => 0], suffix := fun _ _ => 0,
    fallback := "AAAA", shuffle := fun _ => 0, mark := 0, tick := 0, connId := "c" }

/-- A second set of random outcomes: every draw is `0` but the shuffle draw,
which is `1` (the shuffle leaves `["X", "O"]` in place). -/
def rand1 : Rand :=
  { rand0 with shuffle := fun _ => 1 }

/-- A game played to a win: Ann creates the room `AAAAAA`, Bob joins, and the
cells 0, 1 and 2 are played in turn, each receiving the random mark `"X"`. -/
def wonGame : List (Event × Rand) :=
  [(Event.connection 1, rand0), (Event.connection 2, rand0),
   (Event.message 1 (ClientMsg.create_room "Ann"), rand0),
   (Event.message 2 (ClientMsg.join_room "AAAAAA" "Bob"), rand1),
   (Event.message 1 (ClientMsg.move (some 0)), rand0),
   (Event.message 2 (ClientMsg.move (some 1)), rand0),
   (Event.message 1 (ClientMsg.move (some 2)), rand0)]

/-- The server state after `wonGame`. -/
def wonGameState : Server :=
  (run asciiLib Server.init wonGame).getD Server.init

/-- The room `AAAAAA` after `wonGame`. -/
def wonGameRoom : Room :=
  (JsMap.get wonGameState.rooms "AAAAAA").getD emptyRoom

/-- A room with the players `Ann` and `Ann-AAAA`. -/
def annRoom : Room :=
  { emptyRoom with
    clients := [1, 2]
    players := [(1, { id := "c", name := "Ann", symbol := none }),
                (2, { id := "c", name := "Ann-AAAA", symbol := none })] }

/-- Random outcomes whose first suffix draw is `AAAA` and second is `BBBB`. -/
def randAB : Rand :=
  { rand0 with suffix := fun tries _ => tries }

/-- Three connections in the room `AAAAAA`: Ann and Bob play, Cat watches. -/
def watchedGame : List (Event × Rand) :=
  [(Event.connection 1, rand0), (Event.connection 2, rand0), (Event.connection 3, rand0),
   (Event.message 1 (ClientMsg.create_room "Ann"), rand0),
   (Event.message 2 (ClientMsg.join_room "AAAAAA" "Bob"), rand1),
   (Event.message 3 (ClientMsg.join_room "AAAAAA" "Cat"), rand0)]

/-- The server state after `watchedGame`. -/
def watchedState : Server :=
  (run asciiLib Server.init watchedGame).getD Server.init

/-- The room `AAAAAA` after `watchedGame`. -/
def watchedRoom : Room :=
  (JsMap.get watchedState.rooms "AAAAAA").getD emptyRoom

/-- Ann creates the room `AAAAAA` and Bob joins: Ann holds X, Bob holds O. -/
def seatedGame : List (Event × Rand) :=
  [(Event.connection 1, rand0), (Event.connection 2, rand0),
   (Event.message 1 (ClientMsg.create_room "Ann"), rand0),
   (Event.message 2 (ClientMsg.join_room "AAAAAA" "Bob"), rand1)]

/-- The server state after `seatedGame`. -/
def seatedState : Server :=
  (run asciiLib Server.init seatedGame).getD Server.init

/-- The room `AAAAAA` after `seatedGame`. -/
def seatedRoom : Room :=
  (JsMap.get seatedState.rooms "AAAAAA").getD emptyRoom

/-- Random outcomes whose `randomMark` draw is the third one, the empty mark. -/
def randEmpty : Rand :=
  { rand0 with mark := 2 }

/-- The room `AAAAAA` after Ann's move at cell 4 in `seatedState`, the random
mark being the empty one. -/
def emptyMarkRoom : Room :=
  ((step asciiLib seatedState (Event.message 1 (ClientMsg.move (some 4))) randEmpty).bind
    fun o => JsMap.get o.1.rooms "AAAAAA").getD emptyRoom

/-- The game `wonGame` up to its last move: cells 0 and 1 hold `"X"`, and it is
Ann's turn. -/
def preWinGame : List (Event × Rand) :=
  seatedGame ++
    [(Event.message 1 (ClientMsg.move (some 0)), rand0),
     (Event.message 2 (ClientMsg.move (some 1)), rand0)]

/-- The server state after `preWinGame`. -/
def preWinState : Server :=
  (run asciiLib Server.init preWinGame).getD Server.init

/-- The room `AAAAAA` after `preWinGame`. -/
def preWinRoom : Room :=
  (JsMap.get preWinState.rooms "AAAAAA").getD emptyRoom

/-- A name that fills the 16 characters. -/
def longName : String := "ABCDEFGHIJKLMNOP"

/-- Two connections ask for the same 16-character name: one creates the room
`AAAAAA`, the other joins it. -/
def twinGame : List (Event × Rand) :=
  [(Event.connection 1, rand0), (Event.connection 2, rand0),
   (Event.message 1 (ClientMsg.create_room longName), rand0),
   (Event.message 2 (ClientMsg.join_room "AAAAAA" longName), rand1)]

/-- The server state after `twinGame`. -/
def twinState : Server :=
  (run asciiLib Server.init twinGame).getD Server.init

/-- The room `AAAAAA` after `twinGame`. -/
def twinRoom : Room :=
  (JsMap.get twinState.rooms "AAAAAA").getD emptyRoom

/-- The server state after a reset by connection 1 in `twinState`, the shuffle
leaving `["X", "O"]` in place. -/
def twinResetState : Server :=
  ((step asciiLib twinState (Event.message 1 ClientMsg.reset) rand1).map Prod.fst).getD
    Server.init

/-- The room `AAAAAA` after that reset. -/
def twinResetRoom : Room :=
  (JsMap.get twinResetState.rooms "AAAAAA").getD emptyRoom

/-- Random outcomes whose room code draw gives `BBBBBB`. -/
def randB : Rand :=
  { rand0 with roomCodes := [fun _ => 1] }

/-- Ann creates the room `AAAAAA`, Bob creates the room `BBBBBB`, and Ann, on
the same connection, joins `BBBBBB`. -/
def ghostGame : List (Event × Rand) :=
  [(Event.connection 1, rand0), (Event.connection 2, rand0),
   (Event.message 1 (ClientMsg.create_room "Ann"), rand0),
   (Event.message 2 (ClientMsg.create_room "Bob"), randB),
   (Event.message 1 (ClientMsg.join_room "BBBBBB" "Ann"), rand0)]

/-- The server state after `ghostGame`. -/
def ghostBefore : Server :=
  (run asciiLib Server.init ghostGame).getD Server.init

/-- The server state once the disconnect of connection 1 has been processed in
`ghostBefore`. -/
def ghostState : Server :=
  ((step asciiLib ghostBefore (Event.close 1) rand0).map Prod.fst).getD Server.init

/-- The room `AAAAAA` in `ghostState`. -/
def ghostRoom : Room :=
  (JsMap.get ghostState.rooms "AAAAAA").getD emptyRoom

/-- Ann creates the room `AAAAAA`; Bob joins and receives O; Bob leaves; Cat
joins and the shuffle gives Cat X and Ann O; Cat leaves; Bob comes back on a
new connection under his name. -/
def clashGame : List (Event × Rand) :=
  [(Event.connection 1, rand0), (Event.connection 2, rand0),
   (Event.connection 3, rand0), (Event.connection 4, rand0),
   (Event.message 1 (ClientMsg.create_room "Ann"), rand0),
   (Event.message 2 (ClientMsg.join_room "AAAAAA" "Bob"), rand1),
   (Event.close 2, rand0),
   (Event.message 3 (ClientMsg.join_room "AAAAAA" "Cat"), rand0),
   (Event.close 3, rand0),
   (Event.message 4 (ClientMsg.join_room "AAAAAA" "Bob"), rand0)]

/-- The server state after `clashGame`. -/
def clashState : Server :=
  (run asciiLib Server.init clashGame).getD Server.init

/-- The room `AAAAAA` after `clashGame`. -/
def clashRoom : Room :=
  (JsMap.get clashState.rooms "AAAAAA").getD emptyRoom

/-- Ann and Bob play the row 0-1-2 to a win of X while Cat watches; then Cat
disconnects. -/
def reopenGame : List (Event × Rand) :=
  watchedGame ++
    [(Event.message 1 (ClientMsg.move (some 0)), rand0),
     (Event.message 2 (ClientMsg.move (some 1)), rand0),
     (Event.message 1 (ClientMsg.move (some 2)), rand0),
     (Event.close 3, rand0)]

/-- The server state after `reopenGame`. -/
def reopenState : Server :=
  (run asciiLib Server.init reopenGame).getD Server.init

/-- The room `AAAAAA` after `reopenGame`. -/
def reopenRoom : Room :=
  (JsMap.get reopenState.rooms "AAAAAA").getD emptyRoom

/-- The room `AAAAAA` after one more move, by Ann at cell 3, in `reopenState`. -/
def recountRoom : Room :=
  ((step asciiLib reopenState (Event.message 1 (ClientMsg.move (some 3))) rand0).bind
    fun o => JsMap.get o.1.rooms "AAAAAA").getD emptyRoom

/-- Ann creates the room `AAAAAA` and Bob joins, while a third connection is
open and in no room yet. -/
def lobbyGame : List (Event × Rand) :=
  [(Event.connection 1, rand0), (Event.connection 2, rand0), (Event.connection 3, rand0),
   (Event.message 1 (ClientMsg.create_room "Ann"), rand0),
   (Event.message 2 (ClientMsg.join_room "AAAAAA" "Bob"), rand1)]

/-- The server state after `lobbyGame`. -/
def lobbyState : Server :=
  (run asciiLib Server.init lobbyGame).getD Server.init

/-- The room `AAAAAA` after `lobbyGame`. -/
def lobbyRoom : Room :=
  (JsMap.get lobbyState.rooms "AAAAAA").getD emptyRoom

/-- Ann and Bob are seated in the room `AAAAAA`, then Ann disconnects: Bob is
the last connection of the room. -/
def lastOneGame : List (Event × Rand) :=
  seatedGame ++ [(Event.close 1, rand0)]

/-- The server state after `lastOneGame`. -/
def lastOneState : Server :=
  (run asciiLib Server.init lastOneGame).getD Server.init

/-- The server state once Bob has disconnected too, in `lastOneState`: the room
`AAAAAA` is destroyed. -/
def goneState : Server :=
  ((step asciiLib lastOneState (Event.close 2) rand0).map Prod.fst).getD Server.init

/-- A raw name of 18 characters whose 16th character is a space. -/
def clippedRaw : String := "abcdefghijklmno pq"

/-- The first three events of `twinGame`: the room `AAAAAA` exists and its only
player holds the 16-character name. -/
def twinCreatedGame : List (Event × Rand) :=
  [(Event.connection 1, rand0), (Event.connection 2, rand0),
   (Event.message 1 (ClientMsg.create_room longName), rand0)]

/-- The server state after `twinCreatedGame`. -/
def twinCreatedState : Server :=
  (run asciiLib Server.init twinCreatedGame).getD Server.init

/-- The room `AAAAAA` after `twinCreatedGame`. -/
def twinCreatedRoom : Room :=
  (JsMap.get twinCreatedState.rooms "AAAAAA").getD emptyRoom

/-- Ann has created the room `AAAAAA`; Bob is connected and in no room yet. -/
def createdGame : List (Event × Rand) :=
  [(Event.connection 1, rand0), (Event.connection 2, rand0),
   (Event.message 1 (ClientMsg.create_room "Ann"), rand0)]

/-- The server state after `createdGame`. -/
def createdState : Server :=
  (run asciiLib Server.init createdGame).getD Server.init

/-- The server state once Bob has joined the room `AAAAAA` in `createdState`. -/
def joinedState : Server :=
  ((step asciiLib createdState (Event.message 2 (ClientMsg.join_room "AAAAAA" "Bob"))
    rand1).map Prod.fst).getD Server.init

/-! ## Predicates used by the theorems -/

/-- The status of a room agrees with its number of players: the status is
`"playing"` or `"over"` exactly when there are two players. -/
def StatusInv (r : Room) : Prop :=
  (r.status = Status.playing ∨ r.status = Status.over) ↔ r.players.length = 2

/-- No player and no spectator of the room has a name equal to `name` up to
case. -/
def NameFree (lib : StrLib) (room : Room) (name : String) : Prop :=
  (∀ p ∈ JsMap.values room.players, lib.toLowerCase p.name ≠ lib.toLowerCase name) ∧
    ∀ sp ∈ JsMap.values room.spectators, lib.toLowerCase sp.name ≠ lib.toLowerCase name

/-- The acceptance conditions of a move by `ws` at `index` in `room`: the room
is playing, the sender is a player whose symbol is the turn, and the index is
an integer in `0..8` whose cell is empty. -/
def MoveAccepted (room : Room) (ws : Nat) (index : Option Int) : Prop :=
  room.status = Status.playing ∧
    (∃ me, JsMap.get room.players ws = some me ∧ me.symbol = some room.turn) ∧
    ∃ i : Fin 9, index = some (i.val : Int) ∧ room.board i = none

/-- The board once the random mark is written at cell `i`: only that cell
changes. -/
def boardAfter (room : Room) (i : Fin 9) (rnd : Rand) : Board :=
  Function.update room.board i (randomMark rnd.mark)

/-- The counter `f` (wins, losses or draws) of the score entry under `key`;
`0` when the key has no entry. -/
def counter (f : ScoreEntry → Nat) (scores : JsMap String ScoreEntry) (key : String) : Nat :=
  match JsMap.get scores key with
  | some e => f e
  | none => 0

/-- The wins recorded under a case-folded name. -/
abbrev winsOf := counter ScoreEntry.wins

/-- The losses recorded under a case-folded name. -/
abbrev lossesOf := counter ScoreEntry.losses

/-- The draws recorded under a case-folded name. -/
abbrev drawsOf := counter ScoreEntry.draws

/-- The collections of a room are well formed as JavaScript maps and sets: no
key occurs twice, and there are at most two players. -/
def WellFormed (r : Room) : Prop :=
  (r.players.map Prod.fst).Nodup ∧ (r.spectators.map Prod.fst).Nodup ∧
    (r.scores.map Prod.fst).Nodup ∧ r.clients.Nodup ∧ r.players.length ≤ 2

/-- A property of rooms that holds of a created room and that every accepted
request and every disconnect preserves: one clause per place where a handler
stores a room in the registry. -/
structure RoomInvariant (lib : StrLib) (P : Room → Prop) : Prop where
  /-- The room stored by `create_room`. -/
  create : ∀ (ws : Nat) (id name : String),
    P { ensureScore lib
          { emptyRoom with
            clients := setAdd emptyRoom.clients ws
            players := JsMap.set emptyRoom.players ws
              { id := id, name := name, symbol := none } } name with
        status := Status.waiting, lastResult := none, lastMove := none }
  /-- The room stored by `join_room` when the requester takes a seat. -/
  seat : ∀ (s : Server) (ws : Nat) (me : Conn) (code : String) (room : Room)
    (name : String) (rnd : Rand), P room → room.players.length < 2 →
    P (seatPlayer lib s ws me code
        (ensureScore lib { room with clients := setAdd room.clients ws } name) name rnd).1
  /-- The room stored by `join_room` when the requester becomes a spectator. -/
  spectate : ∀ (ws : Nat) (id name : String) (room : Room), P room →
    ¬room.players.length < 2 →
    P { ensureScore lib { room with clients := setAdd room.clients ws } name with
        spectators := JsMap.set room.spectators ws { id := id, name := name } }
  /-- The room stored by `reset` when two players are seated. -/
  resetTwo : ∀ (ws : Nat) (room : Room) (rnd : Nat → Nat), P room →
    JsMap.has room.players ws = true → room.players.length = 2 →
    P { assignRandomSymbols
          { room with board := fun _ => none, lastResult := none, lastMove := none } rnd with
        status := Status.playing }
  /-- The room stored by `reset` otherwise. -/
  resetOther : ∀ (ws : Nat) (room : Room), P room →
    JsMap.has room.players ws = true → room.players.length ≠ 2 →
    P { room with
        board := fun _ => none, lastResult := none, lastMove := none,
        status := Status.waiting, turn := Sym.X }
  /-- The room stored by an accepted `move`. -/
  move : ∀ (ws : Nat) (room : Room) (idx : Fin 9) (rnd : Rand), P room →
    MoveAccepted room ws (some (idx.val : Int)) → P (applyMove lib room idx rnd)
  /-- The room stored by the `close` handler. -/
  close : ∀ (ws : Nat) (room : Room), P room →
    P { room with
        clients := setDelete room.clients ws
        players := JsMap.delete room.players ws
        spectators := JsMap.delete room.spectators ws
        status :=
          if (JsMap.delete room.players ws).length = 2 then Status.playing
          else Status.waiting }

/-- The one way an event changes the sticky-identity map.  The event is a
`join_room` or a `reset` sent by a connection `ws`; after it the room under
`code` is in the registry, is playing, has exactly two players, `ws` among
them; and the map has received, for each player of that room in seating order,
the entry that maps the key of `code` and the player name to the player symbol. -/
def StickyUpdate (lib : StrLib) (s s1 : Server) (e : Event) : Prop :=
  ∃ (ws : Nat) (code : String) (room1 : Room),
    ((∃ rawCode name, e = Event.message ws (ClientMsg.join_room rawCode name)) ∨
        e = Event.message ws ClientMsg.reset) ∧
      JsMap.get s1.rooms code = some room1 ∧ room1.players.length = 2 ∧
      room1.status = Status.playing ∧ JsMap.has room1.players ws = true ∧
      s1.stickyIdentity =
        setSticky lib code s.stickyIdentity (JsMap.values room1.players)

/-! ### The eight triples, as the specification words them -/

/-- Row `r` of the board: cells `3r, 3r+1, 3r+2`. -/
def specRow (r : Fin 3) : Line :=
  (⟨3 * r.val, by omega⟩, ⟨3 * r.val + 1, by omega⟩, ⟨3 * r.val + 2, by omega⟩)

/-- Column `c` of the board: cells `c, c+3, c+6`. -/
def specCol (c : Fin 3) : Line :=
  (⟨c.val, by omega⟩, ⟨c.val + 3, by omega⟩, ⟨c.val + 6, by omega⟩)

/-- The 3 rows, 3 columns and 2 diagonals. -/
def specTriples : List Line :=
  (List.finRange 3).map specRow ++ (List.finRange 3).map specCol ++
    [(0, 4, 8), (2, 4, 6)]

/-! ## Theorems: game engine -/

theorem lines_eq_specTriples : lines = specTriples := by
  decide

theorem lineHit_iff (b : Board) (l : Line) :
    lineHit b l = true ↔ ∃ w, b l.1 = some w ∧ b l.2.1 = some w ∧ b l.2.2 = some w := by
  unfold lineHit
  constructor
  · intro h
    simp only [Bool.and_eq_true, beq_iff_eq] at h
    obtain ⟨⟨h1, h2⟩, h3⟩ := h
    obtain ⟨w, hw⟩ := Option.isSome_iff_exists.mp h1
    exact ⟨w, hw, by rw [← h2, hw], by rw [← h3, hw]⟩
  · rintro ⟨w, h1, h2, h3⟩
    simp [h1, h2, h3]

theorem getWinnerLoop_eq (b : Board) (ls : List Line) :
    getWinnerLoop b ls = (getWinningLineLoop b ls).bind fun l => b l.1 := by
  induction ls with
  | nil => rfl
  | cons l rest ih =>
    unfold getWinnerLoop getWinningLineLoop
    by_cases h : lineHit b l = true
    · simp [h]
    · simp [h, ih]

theorem getWinningLineLoop_some (b : Board) (ls : List Line) (l : Line)
    (h : getWinningLineLoop b ls = some l) : l ∈ ls ∧ lineHit b l = true := by
  induction ls with
  | nil => simp [getWinningLineLoop] at h
  | cons l0 rest ih =>
    unfold getWinningLineLoop at h
    by_cases h0 : lineHit b l0 = true
    · simp only [h0, if_true, Option.some.injEq] at h
      subst h
      exact ⟨List.mem_cons_self _ _, h0⟩
    · simp only [h0] at h
      obtain ⟨hm, hh⟩ := ih h
      exact ⟨List.mem_cons_of_mem _ hm, hh⟩

theorem getWinningLineLoop_none (b : Board) (ls : List Line)
    (h : getWinningLineLoop b ls = none) : ∀ l ∈ ls, lineHit b l = false := by
  induction ls with
  | nil => simp
  | cons l0 rest ih =>
    unfold getWinningLineLoop at h
    by_cases h0 : lineHit b l0 = true
    · simp [h0] at h
    · simp only [h0] at h
      intro l hl
      rcases List.mem_cons.mp hl with rfl | hl
      · simpa using h0
      · exact ih h l hl

/-- C7: `getWinner(b)` is non-null exactly when one of the 3 rows, 3 columns
and 2 diagonals holds three equal non-empty cells, and the symbol it returns is
the value shared by the three cells of such a triple. -/
theorem getWinner_iff_triple (b : Board) :
    ((getWinner b).isSome ↔
        ∃ l ∈ specTriples, ∃ w, b l.1 = some w ∧ b l.2.1 = some w ∧ b l.2.2 = some w) ∧
      ∀ w, getWinner b = some w →
        ∃ l ∈ specTriples, b l.1 = some w ∧ b l.2.1 = some w ∧ b l.2.2 = some w := by
  rw [← lines_eq_specTriples]
  have key : ∀ w, getWinner b = some w →
      ∃ l ∈ lines, b l.1 = some w ∧ b l.2.1 = some w ∧ b l.2.2 = some w := by
    intro w hw
    unfold getWinner at hw
    rw [getWinnerLoop_eq] at hw
    obtain ⟨l, hl, hbl⟩ := Option.bind_eq_some.mp hw
    obtain ⟨hm, hh⟩ := getWinningLineLoop_some b lines l hl
    obtain ⟨w', h1, h2, h3⟩ := (lineHit_iff b l).mp hh
    have : w' = w := by
      rw [h1] at hbl
      exact Option.some.inj hbl
    subst this
    exact ⟨l, hm, h1, h2, h3⟩
  refine ⟨⟨?_, ?_⟩, key⟩
  · intro h
    obtain ⟨w, hw⟩ := Option.isSome_iff_exists.mp h
    obtain ⟨l, hm, h1, h2, h3⟩ := key w hw
    exact ⟨l, hm, w, h1, h2, h3⟩
  · rintro ⟨l, hm, hex⟩
    have hh : lineHit b l = true := (lineHit_iff b l).mpr hex
    unfold getWinner
    rw [getWinnerLoop_eq]
    cases hg : getWinningLineLoop b lines with
    | none =>
      have := getWinningLineLoop_none b lines hg l hm
      rw [hh] at this
      exact absurd this (by decide)
    | some l' =>
      obtain ⟨_, hh'⟩ := getWinningLineLoop_some b lines l' hg
      obtain ⟨w', h1, _, _⟩ := (lineHit_iff b l').mp hh'
      simp [h1]

/-- C8: `getWinningLine(b)` is non-null exactly when `getWinner(b)` is, and a
line it returns is one of the 8 triples whose three cells all equal
`getWinner(b)`. -/
theorem getWinningLine_agrees (b : Board) :
    ((getWinningLine b).isSome ↔ (getWinner b).isSome) ∧
      ∀ l, getWinningLine b = some l →
        l ∈ lines ∧ l ∈ specTriples ∧ (getWinner b).isSome ∧
          b l.1 = getWinner b ∧ b l.2.1 = getWinner b ∧ b l.2.2 = getWinner b := by
  have key : ∀ l, getWinningLine b = some l →
      l ∈ lines ∧ l ∈ specTriples ∧ (getWinner b).isSome ∧
        b l.1 = getWinner b ∧ b l.2.1 = getWinner b ∧ b l.2.2 = getWinner b := by
    intro l hl
    unfold getWinningLine at hl
    obtain ⟨hm, hh⟩ := getWinningLineLoop_some b lines l hl
    obtain ⟨w, h1, h2, h3⟩ := (lineHit_iff b l).mp hh
    have hw : getWinner b = some w := by
      unfold getWinner
      rw [getWinnerLoop_eq, hl]
      simpa using h1
    refine ⟨hm, ?_, ?_, ?_, ?_, ?_⟩
    · rw [← lines_eq_specTriples]; exact hm
    · simp [hw]
    · rw [hw, h1]
    · rw [hw, h2]
    · rw [hw, h3]
  refine ⟨⟨?_, ?_⟩, key⟩
  · intro h
    obtain ⟨l, hl⟩ := Option.isSome_iff_exists.mp h
    exact (key l hl).2.2.1
  · intro h
    unfold getWinner at h
    rw [getWinnerLoop_eq] at h
    unfold getWinningLine
    cases hg : getWinningLineLoop b lines with
    | none => rw [hg] at h; simp at h
    | some l => simp


/-! ## Theorems: maps -/

theorem JsMap.mem_set {κ α : Type} [DecidableEq κ] (m : JsMap κ α) (k : κ) (v : α)
    (e : κ × α) (h : e ∈ JsMap.set m k v) : e ∈ m ∨ e = (k, v) := by
  induction m with
  | nil =>
    simp only [JsMap.set, List.mem_singleton] at h
    exact Or.inr h
  | cons hd tl ih =>
    obtain ⟨k', v'⟩ := hd
    unfold JsMap.set at h
    by_cases hk : k' = k
    · simp only [hk, if_true, List.mem_cons] at h
      rcases h with h | h
      · exact Or.inr h
      · exact Or.inl (List.mem_cons_of_mem _ h)
    · simp only [hk, if_false, List.mem_cons] at h
      rcases h with h | h
      · exact Or.inl (h ▸ List.mem_cons_self _ _)
      · rcases ih h with h | h
        · exact Or.inl (List.mem_cons_of_mem _ h)
        · exact Or.inr h

theorem JsMap.mem_of_get {κ α : Type} [DecidableEq κ] (m : JsMap κ α) (k : κ) (v : α)
    (h : JsMap.get m k = some v) : (k, v) ∈ m := by
  induction m with
  | nil => simp [JsMap.get] at h
  | cons hd tl ih =>
    obtain ⟨k', v'⟩ := hd
    unfold JsMap.get at h
    by_cases hk : k' = k
    · simp only [hk, if_true, Option.some.injEq] at h
      subst hk
      subst h
      exact List.mem_cons_self _ _
    · simp only [hk, if_false] at h
      exact List.mem_cons_of_mem _ (ih h)

theorem JsMap.mem_delete {κ α : Type} [DecidableEq κ] (m : JsMap κ α) (k : κ)
    (e : κ × α) (h : e ∈ JsMap.delete m k) : e ∈ m :=
  (List.mem_filter.mp h).1

theorem JsMap.length_set_le {κ α : Type} [DecidableEq κ] (m : JsMap κ α) (k : κ) (v : α) :
    (JsMap.set m k v).length ≤ m.length + 1 := by
  induction m with
  | nil => simp [JsMap.set]
  | cons hd tl ih =>
    obtain ⟨k', v'⟩ := hd
    unfold JsMap.set
    by_cases hk : k' = k
    · simp [hk]
    · simp only [hk, if_false, List.length_cons]
      omega

theorem JsMap.get_set_self {κ α : Type} [DecidableEq κ] (m : JsMap κ α) (k : κ) (v : α) :
    JsMap.get (JsMap.set m k v) k = some v := by
  induction m with
  | nil => simp [JsMap.set, JsMap.get]
  | cons hd tl ih =>
    obtain ⟨k', v'⟩ := hd
    unfold JsMap.set
    by_cases hk : k' = k
    · simp [hk, JsMap.get]
    · simp [hk, JsMap.get, ih]

theorem JsMap.get_set_ne {κ α : Type} [DecidableEq κ] (m : JsMap κ α) (k k2 : κ) (v : α)
    (hne : k ≠ k2) : JsMap.get (JsMap.set m k v) k2 = JsMap.get m k2 := by
  induction m with
  | nil => simp [JsMap.set, JsMap.get, hne]
  | cons hd tl ih =>
    obtain ⟨k', v'⟩ := hd
    unfold JsMap.set
    by_cases hk : k' = k
    · subst hk
      simp [JsMap.get, hne]
    · by_cases hk2 : k' = k2
      · subst hk2
        simp [hk, JsMap.get]
      · simp [hk, hk2, JsMap.get, ih]

/-! ## Theorems: what the helpers leave alone -/

section Frames

variable (lib : StrLib) (r : Room) (n : String)

@[simp] theorem ensureScore_players : (ensureScore lib r n).players = r.players := by
  unfold ensureScore; split <;> rfl

@[simp] theorem ensureScore_spectators :
    (ensureScore lib r n).spectators = r.spectators := by
  unfold ensureScore; split <;> rfl

@[simp] theorem ensureScore_clients : (ensureScore lib r n).clients = r.clients := by
  unfold ensureScore; split <;> rfl

@[simp] theorem ensureScore_board : (ensureScore lib r n).board = r.board := by
  unfold ensureScore; split <;> rfl

@[simp] theorem ensureScore_turn : (ensureScore lib r n).turn = r.turn := by
  unfold ensureScore; split <;> rfl

@[simp] theorem ensureScore_status : (ensureScore lib r n).status = r.status := by
  unfold ensureScore; split <;> rfl

@[simp] theorem ensureScore_lastResult :
    (ensureScore lib r n).lastResult = r.lastResult := by
  unfold ensureScore; split <;> rfl

@[simp] theorem ensureScore_lastMove : (ensureScore lib r n).lastMove = r.lastMove := by
  unfold ensureScore; split <;> rfl

@[simp] theorem finalize_players :
    (finalizeScoresOnGameOver lib r).players = r.players := by
  unfold finalizeScoresOnGameOver
  split
  · rfl
  · split
    · rfl
    · split <;> simp

@[simp] theorem finalize_spectators :
    (finalizeScoresOnGameOver lib r).spectators = r.spectators := by
  unfold finalizeScoresOnGameOver
  split
  · rfl
  · split
    · rfl
    · split <;> simp

@[simp] theorem finalize_clients :
    (finalizeScoresOnGameOver lib r).clients = r.clients := by
  unfold finalizeScoresOnGameOver
  split
  · rfl
  · split
    · rfl
    · split <;> simp

@[simp] theorem finalize_board : (finalizeScoresOnGameOver lib r).board = r.board := by
  unfold finalizeScoresOnGameOver
  split
  · rfl
  · split
    · rfl
    · split <;> simp

@[simp] theorem finalize_turn : (finalizeScoresOnGameOver lib r).turn = r.turn := by
  unfold finalizeScoresOnGameOver
  split
  · rfl
  · split
    · rfl
    · split <;> simp

@[simp] theorem finalize_status : (finalizeScoresOnGameOver lib r).status = r.status := by
  unfold finalizeScoresOnGameOver
  split
  · rfl
  · split
    · rfl
    · split <;> simp

@[simp] theorem finalize_lastResult :
    (finalizeScoresOnGameOver lib r).lastResult = r.lastResult := by
  unfold finalizeScoresOnGameOver
  split
  · rfl
  · split
    · rfl
    · split <;> simp

@[simp] theorem finalize_lastMove :
    (finalizeScoresOnGameOver lib r).lastMove = r.lastMove := by
  unfold finalizeScoresOnGameOver
  split
  · rfl
  · split
    · rfl
    · split <;> simp

end Frames

section AssignFrames

variable (r : Room) (rnd : Nat → Nat)

@[simp] theorem assign_players_length :
    (assignRandomSymbols r rnd).players.length = r.players.length := by
  unfold assignRandomSymbols
  split
  · next h => simp [h]
  · rfl

@[simp] theorem assign_status : (assignRandomSymbols r rnd).status = r.status := by
  unfold assignRandomSymbols; split <;> rfl

@[simp] theorem assign_board : (assignRandomSymbols r rnd).board = r.board := by
  unfold assignRandomSymbols; split <;> rfl

@[simp] theorem assign_spectators :
    (assignRandomSymbols r rnd).spectators = r.spectators := by
  unfold assignRandomSymbols; split <;> rfl

@[simp] theorem assign_clients : (assignRandomSymbols r rnd).clients = r.clients := by
  unfold assignRandomSymbols; split <;> rfl

@[simp] theorem assign_scores : (assignRandomSymbols r rnd).scores = r.scores := by
  unfold assignRandomSymbols; split <;> rfl

@[simp] theorem assign_lastResult :
    (assignRandomSymbols r rnd).lastResult = r.lastResult := by
  unfold assignRandomSymbols; split <;> rfl

@[simp] theorem assign_lastMove :
    (assignRandomSymbols r rnd).lastMove = r.lastMove := by
  unfold assignRandomSymbols; split <;> rfl

end AssignFrames

/-! ## Theorems: room invariants -/

theorem JsMap.forall_set {κ α : Type} [DecidableEq κ] {P : α → Prop} (m : JsMap κ α)
    (k : κ) (v : α) (hm : ∀ x ∈ m, P x.2) (hv : P v) : ∀ x ∈ JsMap.set m k v, P x.2 := by
  intro x hx
  rcases JsMap.mem_set m k v x hx with h | h
  · exact hm x h
  · rw [h]; exact hv

theorem createRoom_some (rooms rooms1 : JsMap String Room) (ds : List (Nat → Nat))
    (code : String) (h : createRoom rooms ds = some (code, rooms1)) :
    JsMap.has rooms code = false ∧ rooms1 = JsMap.set rooms code emptyRoom := by
  induction ds with
  | nil => simp [createRoom] at h
  | cons d ds ih =>
    unfold createRoom at h
    by_cases hd : JsMap.has rooms (makeRoomCode d) = true
    · simp only [hd, if_true] at h
      exact ih h
    · simp only [hd] at h
      simp only [Bool.false_eq_true, if_false, Option.some.injEq, Prod.mk.injEq] at h
      obtain ⟨h1, h2⟩ := h
      subst h1
      exact ⟨by simpa using hd, h2.symm⟩

theorem cleanupEmptyRoom_rooms (s : Server) (roomCode : String) (x : String × Room)
    (h : x ∈ (cleanupEmptyRoom s roomCode).rooms) : x ∈ s.rooms := by
  unfold cleanupEmptyRoom at h
  split at h
  · exact h
  · split at h
    · exact JsMap.mem_delete _ _ _ h
    · exact h

theorem statusInv_seatPlayer (lib : StrLib) (s : Server) (ws : Nat) (me : Conn)
    (roomCode : String) (room : Room) (uniqueName : String) (rnd : Rand) :
    StatusInv (seatPlayer lib s ws me roomCode room uniqueName rnd).1 := by
  unfold seatPlayer StatusInv
  simp only
  split
  · next h =>
    split <;> simp [h]
  · next h => simp [h]

theorem statusInv_applyMove (lib : StrLib) (room : Room) (idx : Fin 9) (rnd : Rand)
    (hs : room.status = Status.playing) (hinv : StatusInv room) :
    StatusInv (applyMove lib room idx rnd) := by
  have hlen : room.players.length = 2 := hinv.mp (Or.inl hs)
  unfold applyMove StatusInv
  simp only
  split
  · simp [hlen]
  · split
    · simp [hlen]
    · simp [hlen, hs]

theorem JsMap.set_set {κ α : Type} [DecidableEq κ] (m : JsMap κ α) (k : κ) (v v2 : α) :
    JsMap.set (JsMap.set m k v) k v2 = JsMap.set m k v2 := by
  induction m with
  | nil => simp [JsMap.set]
  | cons hd tl ih =>
    obtain ⟨k', v'⟩ := hd
    by_cases hk : k' = k
    · simp [JsMap.set, hk]
    · simp [JsMap.set, hk, ih]

/-- Every step of the server preserves a room invariant in all rooms of the
registry. -/
theorem invariant_step (lib : StrLib) (P : Room → Prop) (hP : RoomInvariant lib P)
    (s s1 : Server) (e : Event) (rnd : Rand) (out : List (Nat × ServerMsg))
    (h : step lib s e rnd = some (s1, out))
    (hinv : ∀ x ∈ s.rooms, P x.2) : ∀ x ∈ s1.rooms, P x.2 := by
  cases e with
  | connection ws =>
    simp only [step, handleConnection] at h
    split at h
    · exact absurd h (by simp)
    · simp only [Option.some.injEq, Prod.mk.injEq] at h
      rw [← h.1]
      exact hinv
  | message ws msg =>
    simp only [step] at h
    split at h
    · exact absurd h (by simp)
    · next me _ =>
      split at h
      swap
      · exact absurd h (by simp)
      cases msg with
      | invalid =>
        simp only [handleMessage, Option.some.injEq, Prod.mk.injEq] at h
        rw [← h.1]; exact hinv
      | create_room name =>
        simp only [handleMessage, handleCreateRoom] at h
        split at h
        · exact absurd h (by simp)
        · next roomCode rooms1 hc =>
          obtain ⟨_, hr1⟩ := createRoom_some _ _ _ _ hc
          subst hr1
          rw [JsMap.get_set_self] at h
          simp only [Option.some.injEq, Prod.mk.injEq] at h
          rw [← h.1]
          simp only [JsMap.set_set]
          exact JsMap.forall_set _ _ _ hinv (hP.create ws me.id _)
      | join_room rawCode name =>
        simp only [handleMessage, handleJoinRoom] at h
        split at h
        · simp only [Option.some.injEq, Prod.mk.injEq] at h
          rw [← h.1]; exact hinv
        · next room hg =>
          have hroom : P room := hinv _ (JsMap.mem_of_get _ _ _ hg)
          split at h
          · next hlt =>
            simp only [Option.some.injEq, Prod.mk.injEq] at h
            rw [← h.1]
            exact JsMap.forall_set _ _ _ hinv
              (hP.seat s ws me _ room _ rnd hroom (by simpa using hlt))
          · next hlt =>
            simp only [Option.some.injEq, Prod.mk.injEq] at h
            rw [← h.1]
            refine JsMap.forall_set _ _ _ hinv ?_
            have := hP.spectate ws me.id
              (makeUniqueName lib room (normalizeName lib name rnd.nameId) rnd) room hroom
              (by simpa using hlt)
            simpa using this
      | reset =>
        simp only [handleMessage] at h
        split at h
        · simp only [Option.some.injEq, Prod.mk.injEq] at h
          rw [← h.1]; exact hinv
        · split at h
          · simp only [Option.some.injEq, Prod.mk.injEq] at h
            rw [← h.1]; exact hinv
          · next room hg =>
            have hroom : P room := hinv _ (JsMap.mem_of_get _ _ _ hg)
            simp only [handleReset] at h
            split at h
            · simp only [Option.some.injEq, Prod.mk.injEq] at h
              rw [← h.1]; exact hinv
            · next hpl =>
              have hhas : JsMap.has room.players ws = true := by simpa using hpl
              split at h
              · next hlen =>
                simp only [Option.some.injEq, Prod.mk.injEq] at h
                rw [← h.1]
                exact JsMap.forall_set _ _ _ hinv
                  (hP.resetTwo ws room rnd.shuffle hroom hhas hlen)
              · next hlen =>
                simp only [Option.some.injEq, Prod.mk.injEq] at h
                rw [← h.1]
                exact JsMap.forall_set _ _ _ hinv (hP.resetOther ws room hroom hhas hlen)
      | move index =>
        simp only [handleMessage] at h
        split at h
        · simp only [Option.some.injEq, Prod.mk.injEq] at h
          rw [← h.1]; exact hinv
        · split at h
          · simp only [Option.some.injEq, Prod.mk.injEq] at h
            rw [← h.1]; exact hinv
          · next room hg =>
            have hroom : P room := hinv _ (JsMap.mem_of_get _ _ _ hg)
            simp only [handleMove] at h
            split at h
            · simp only [Option.some.injEq, Prod.mk.injEq] at h
              rw [← h.1]; exact hinv
            · next hst =>
              split at h
              · simp only [Option.some.injEq, Prod.mk.injEq] at h
                rw [← h.1]; exact hinv
              · next p hp =>
                split at h
                · simp only [Option.some.injEq, Prod.mk.injEq] at h
                  rw [← h.1]; exact hinv
                · next hsym =>
                  split at h
                  · simp only [Option.some.injEq, Prod.mk.injEq] at h
                    rw [← h.1]; exact hinv
                  · next i hi =>
                    split at h
                    · simp only [Option.some.injEq, Prod.mk.injEq] at h
                      rw [← h.1]; exact hinv
                    · next hcell =>
                      simp only [Option.some.injEq, Prod.mk.injEq] at h
                      rw [← h.1]
                      refine JsMap.forall_set _ _ _ hinv (hP.move ws room i rnd hroom ?_)
                      exact ⟨by simpa using hst, ⟨p, hp, by simpa using hsym⟩, i, rfl,
                        by simpa using hcell⟩
      | unknown =>
        simp only [handleMessage] at h
        split at h
        · simp only [Option.some.injEq, Prod.mk.injEq] at h
          rw [← h.1]; exact hinv
        · split at h
          · simp only [Option.some.injEq, Prod.mk.injEq] at h
            rw [← h.1]; exact hinv
          · simp only [Option.some.injEq, Prod.mk.injEq] at h
            rw [← h.1]; exact hinv
  | close ws =>
    simp only [step] at h
    split at h
    · exact absurd h (by simp)
    · split at h
      swap
      · exact absurd h (by simp)
      simp only [handleClose] at h
      split at h
      · simp only [Option.some.injEq, Prod.mk.injEq] at h
        rw [← h.1]; exact hinv
      · split at h
        · simp only [Option.some.injEq, Prod.mk.injEq] at h
          rw [← h.1]; exact hinv
        · next room hg =>
          have hroom : P room := hinv _ (JsMap.mem_of_get _ _ _ hg)
          simp only [Option.some.injEq, Prod.mk.injEq] at h
          rw [← h.1]
          intro x hx
          exact JsMap.forall_set _ _ _ hinv (hP.close ws room hroom) x
            (cleanupEmptyRoom_rooms _ _ x hx)

/-- A room invariant holds of every room of every reachable state. -/
theorem invariant_reachable (lib : StrLib) (P : Room → Prop) (hP : RoomInvariant lib P)
    (s : Server) (hs : Reachable lib s) : ∀ x ∈ s.rooms, P x.2 := by
  induction hs with
  | init => intro x hx; simp [Server.init] at hx
  | step _ hstep ih => exact invariant_step lib P hP _ _ _ _ _ hstep ih

theorem statusInv_invariant (lib : StrLib) : RoomInvariant lib StatusInv where
  create := by
    intro ws id name
    simp [StatusInv, emptyRoom, JsMap.set]
  seat := by
    intro s ws me code room name rnd _ _
    exact statusInv_seatPlayer _ _ _ _ _ _ _ _
  spectate := by
    intro ws id name room hroom _
    simpa [StatusInv] using hroom
  resetTwo := by
    intro ws room rnd _ _ hlen
    simp [StatusInv, hlen]
  resetOther := by
    intro ws room _ _ hlen
    simp [StatusInv, hlen]
  move := by
    intro ws room idx rnd hroom hacc
    exact statusInv_applyMove lib room idx rnd hacc.1 hroom
  close := by
    intro ws room _
    simp only [StatusInv]
    split <;> simp_all

theorem statusInv_reachable (lib : StrLib) (s : Server) (hs : Reachable lib s) :
    ∀ x ∈ s.rooms, StatusInv x.2 :=
  invariant_reachable lib StatusInv (statusInv_invariant lib) s hs

theorem reachable_of_run (lib : StrLib) (evs : List (Event × Rand)) :
    ∀ s s1 : Server, Reachable lib s → run lib s evs = some s1 → Reachable lib s1 := by
  induction evs with
  | nil =>
    intro s s1 hs h
    simp only [run, Option.some.injEq] at h
    exact h ▸ hs
  | cons ev rest ih =>
    intro s s1 hs h
    obtain ⟨e, rnd⟩ := ev
    simp only [run] at h
    split at h
    · exact absurd h (by simp)
    · next s2 out hstep => exact ih s2 s1 (Reachable.step hs hstep) h

theorem eq_some_getD {α : Type} (o : Option α) (d : α) (h : o.isSome = true) :
    o = some (o.getD d) := by
  cases o with
  | none => simp at h
  | some a => rfl

/-! ## Theorems: unique names -/

theorem roomHasName_false_iff (lib : StrLib) (room : Room) (name : String) :
    roomHasName lib room (lib.toLowerCase name) = false ↔ NameFree lib room name := by
  unfold roomHasName NameFree
  simp [Bool.or_eq_false_iff]

theorem makeUniqueNameLoop_some (lib : StrLib) (room : Room) (base : String)
    (suffix : Nat → Nat → Nat) (n : Nat) :
    ∀ tries c, makeUniqueNameLoop lib room base suffix n tries = some c →
      roomHasName lib room (lib.toLowerCase c) = false := by
  induction n with
  | zero => intro tries c h; simp [makeUniqueNameLoop] at h
  | succ n ih =>
    intro tries c h
    unfold makeUniqueNameLoop at h
    split at h
    · next hfree =>
      simp only [Option.some.injEq] at h
      rw [← h]
      simpa using hfree
    · exact ih _ _ h

theorem makeUniqueNameLoop_isSome (lib : StrLib) (room : Room) (base : String)
    (suffix : Nat → Nat → Nat) (n : Nat) :
    ∀ tries t, tries ≤ t → t < tries + n →
      roomHasName lib room (lib.toLowerCase (candidateName base suffix t)) = false →
      (makeUniqueNameLoop lib room base suffix n tries).isSome = true := by
  induction n with
  | zero => intro tries t h1 h2; omega
  | succ n ih =>
    intro tries t h1 h2 hfree
    unfold makeUniqueNameLoop
    split
    · rfl
    · next hbusy =>
      have hne : t ≠ tries := by
        rintro rfl
        rw [hfree] at hbusy
        exact hbusy rfl
      exact ih (tries + 1) t (by omega) (by omega) hfree

/-- Retry exhaustion: in a room whose players are `Ann` and `Ann-AAAA`, when
every suffix draw gives `AAAA`, `makeUniqueName(room, "Ann")` returns
`Ann-AAAA`, the name of the second player. -/
theorem makeUniqueName_collides :
    "Ann".length ≤ 16 ∧ makeUniqueName asciiLib annRoom "Ann" rand0 = "Ann-AAAA" ∧
      (∃ p ∈ JsMap.values annRoom.players,
        asciiLib.toLowerCase p.name =
          asciiLib.toLowerCase (makeUniqueName asciiLib annRoom "Ann" rand0)) ∧
      ¬NameFree asciiLib annRoom (makeUniqueName asciiLib annRoom "Ann" rand0) := by
  have hname : makeUniqueName asciiLib annRoom "Ann" rand0 = "Ann-AAAA" := by decide
  have hmem : ({ id := "c", name := "Ann-AAAA", symbol := none } : Player) ∈
      JsMap.values annRoom.players := by decide
  refine ⟨by decide, hname, ⟨_, hmem, by rw [hname]⟩, ?_⟩
  intro hfree
  exact hfree.1 _ hmem (by rw [hname])

/-- What the retry loop does guarantee: `makeUniqueName(room, desired)` returns
`desired` itself when no player or spectator of the room has that name up to
case; otherwise, when at least one of the 50 drawn candidates
`(desired + "-" + XXXX).slice(0, 16)` is free in the room, it returns a name
that no player or spectator has up to case. -/
theorem makeUniqueName_free (lib : StrLib) (room : Room) (desired : String) (rnd : Rand)
    (h : NameFree lib room desired ∨
      ∃ t, t < 50 ∧ NameFree lib room (candidateName desired rnd.suffix t)) :
    NameFree lib room (makeUniqueName lib room desired rnd) ∧
      (NameFree lib room desired → makeUniqueName lib room desired rnd = desired) := by
  have hsame : NameFree lib room desired → makeUniqueName lib room desired rnd = desired := by
    intro hd
    unfold makeUniqueName
    rw [(roomHasName_false_iff lib room desired).mpr hd]
    rfl
  refine ⟨?_, hsame⟩
  by_cases hd : NameFree lib room desired
  · rw [hsame hd]; exact hd
  · rcases h with h | ⟨t, ht, hfree⟩
    · exact absurd h hd
    · have hbusy : roomHasName lib room (lib.toLowerCase desired) = true := by
        cases hb : roomHasName lib room (lib.toLowerCase desired) with
        | true => rfl
        | false => exact absurd ((roomHasName_false_iff lib room desired).mp hb) hd
      have hsome := makeUniqueNameLoop_isSome lib room desired rnd.suffix 50 0 t
        (Nat.zero_le _) (by omega) ((roomHasName_false_iff lib room _).mpr hfree)
      obtain ⟨c, hc⟩ := Option.isSome_iff_exists.mp hsome
      unfold makeUniqueName
      rw [hbusy, hc]
      exact (roomHasName_false_iff lib room c).mp
        (makeUniqueNameLoop_some lib room desired rnd.suffix 50 0 c hc)

/-- The guarantee `makeUniqueName_free` in the room of `Ann` and `Ann-AAAA` when
the second suffix drawn is `BBBB`. -/
theorem makeUniqueName_free_witness :
    (∃ t, t < 50 ∧ NameFree asciiLib annRoom (candidateName "Ann" randAB.suffix t)) ∧
      NameFree asciiLib annRoom (makeUniqueName asciiLib annRoom "Ann" randAB) ∧
      makeUniqueName asciiLib annRoom "Ann" randAB = "Ann-BBBB" := by
  have hfree : NameFree asciiLib annRoom (candidateName "Ann" randAB.suffix 1) :=
    (roomHasName_false_iff asciiLib annRoom _).mp (by decide)
  exact ⟨⟨1, by decide, hfree⟩,
    (makeUniqueName_free asciiLib annRoom "Ann" randAB (Or.inr ⟨1, by decide, hfree⟩)).1,
    by decide⟩

/-- When the desired name already fills the 16 characters, every candidate and
the fallback are clipped back to it: `makeUniqueName` returns the desired name
whether or not it is taken. -/
theorem makeUniqueName_full_length (lib : StrLib) (room : Room) (desired : String)
    (rnd : Rand) (hlen : desired.length = 16) :
    makeUniqueName lib room desired rnd = desired := by
  have hclip : ∀ t : String, slice16 (desired ++ "-" ++ t) = desired := by
    intro t
    have hd : desired.data.length = 16 := hlen
    apply String.ext
    simp only [slice16, String.data_append, List.append_assoc]
    rw [List.take_append_of_le_length (by omega)]
    exact List.take_of_length_le (by omega)
  have hloop : ∀ n tries c,
      makeUniqueNameLoop lib room desired rnd.suffix n tries = some c → c = desired := by
    intro n
    induction n with
    | zero => intro tries c h; simp [makeUniqueNameLoop] at h
    | succ n ih =>
      intro tries c h
      unfold makeUniqueNameLoop at h
      split at h
      · simp only [Option.some.injEq] at h
        rw [← h]
        exact hclip _
      · exact ih _ _ h
  unfold makeUniqueName
  split
  · rfl
  · split
    · next c hc => exact hloop _ _ _ hc
    · exact hclip _

/-- When the desired name has 15 characters, every candidate and the fallback
are clipped to the name followed by `-`: `makeUniqueName` can only return the
desired name or that one candidate. -/
theorem makeUniqueName_one_candidate (lib : StrLib) (room : Room) (desired : String)
    (rnd : Rand) (hlen : desired.length = 15) :
    makeUniqueName lib room desired rnd = desired ∨
      makeUniqueName lib room desired rnd = desired ++ "-" := by
  have hclip : ∀ t : String, slice16 (desired ++ "-" ++ t) = desired ++ "-" := by
    intro t
    have hd : desired.data.length = 15 := hlen
    apply String.ext
    simp only [slice16, String.data_append]
    rw [List.take_append_of_le_length (by simp [hd])]
    exact List.take_of_length_le (by simp [hd])
  have hloop : ∀ n tries c,
      makeUniqueNameLoop lib room desired rnd.suffix n tries = some c →
        c = desired ++ "-" := by
    intro n
    induction n with
    | zero => intro tries c h; simp [makeUniqueNameLoop] at h
    | succ n ih =>
      intro tries c h
      unfold makeUniqueNameLoop at h
      split at h
      · simp only [Option.some.injEq] at h
        rw [← h]
        exact hclip _
      · exact ih _ _ h
  unfold makeUniqueName
  split
  · exact Or.inl rfl
  · split
    · next c hc => exact Or.inr (hloop _ _ _ hc)
    · exact Or.inr (hclip _)

/-- C2 fails on the code: the player who created the room `AAAAAA` holds the
16-character name `ABCDEFGHIJKLMNOP`; for every outcome of the random draws
`makeUniqueName(room, "ABCDEFGHIJKLMNOP")` returns that same name, because
`slice(0, 16)` clips the suffix off every candidate and off the fallback; and a
second connection that joins under this name is seated under the name the
first player holds. -/
theorem makeUniqueName_returns_taken_name :
    longName.length ≤ 16 ∧ Reachable asciiLib twinCreatedState ∧
      JsMap.get twinCreatedState.rooms "AAAAAA" = some twinCreatedRoom ∧
      (JsMap.values twinCreatedRoom.players).map Player.name = [longName] ∧
      (∀ rnd : Rand, makeUniqueName asciiLib twinCreatedRoom longName rnd = longName) ∧
      (∀ rnd : Rand,
        ∃ p ∈ JsMap.values twinCreatedRoom.players,
          asciiLib.toLowerCase p.name =
            asciiLib.toLowerCase (makeUniqueName asciiLib twinCreatedRoom longName rnd)) ∧
      Reachable asciiLib twinState ∧ JsMap.get twinState.rooms "AAAAAA" = some twinRoom ∧
      (JsMap.values twinRoom.players).map Player.name = [longName, longName] := by
  have hret : ∀ rnd : Rand,
      makeUniqueName asciiLib twinCreatedRoom longName rnd = longName :=
    fun rnd => makeUniqueName_full_length asciiLib twinCreatedRoom longName rnd (by decide)
  have hmem : ({ id := "c", name := longName, symbol := none } : Player) ∈
      JsMap.values twinCreatedRoom.players := by decide
  refine ⟨by decide,
    reachable_of_run asciiLib twinCreatedGame Server.init twinCreatedState Reachable.init
      (eq_some_getD _ _ (by decide)),
    eq_some_getD _ _ (by decide), by decide, hret, ?_,
    reachable_of_run asciiLib twinGame Server.init twinState Reachable.init
      (eq_some_getD _ _ (by decide)),
    eq_some_getD _ _ (by decide), by decide⟩
  intro rnd
  exact ⟨_, hmem, by rw [hret rnd]⟩

/-! ## Theorems: rejected requests -/

theorem boardIndex_eq_some (index : Option Int) (i : Fin 9) :
    boardIndex index = some i ↔ index = some (i.val : Int) := by
  cases index with
  | none => simp [boardIndex]
  | some idx =>
    simp only [boardIndex, Option.some.injEq]
    constructor
    · intro h
      split at h
      · exact absurd h (by simp)
      · next hr =>
        simp only [Option.some.injEq] at h
        have h1 : i.val = idx.toNat := by
          rw [← h]
          simp only [Fin.ofNat, Fin.val_mk]
          omega
        omega
    · intro h
      subst h
      have hi := i.isLt
      rw [if_neg (by omega)]
      congr 1
      apply Fin.ext
      simp only [Fin.ofNat, Int.toNat_ofNat]
      omega

theorem step_message (lib : StrLib) (s : Server) (ws : Nat) (me : Conn) (msg : ClientMsg)
    (rnd : Rand) (hme : JsMap.get s.conns ws = some me) (hopen : me.isOpen = true) :
    step lib s (Event.message ws msg) rnd = handleMessage lib s ws me msg rnd := by
  simp [step, hme, hopen]

theorem handleMessage_move (lib : StrLib) (s : Server) (ws : Nat) (me : Conn)
    (index : Option Int) (rnd : Rand) (code : String) (room : Room)
    (hcode : me.roomCode = some code) (hne : code ≠ "")
    (hroom : JsMap.get s.rooms code = some room) :
    handleMessage lib s ws me (ClientMsg.move index) rnd =
      handleMove lib s ws code room index rnd := by
  simp [handleMessage, hcode, noRoomCode, hne, hroom]

theorem handleMessage_reset (lib : StrLib) (s : Server) (ws : Nat) (me : Conn)
    (rnd : Rand) (code : String) (room : Room)
    (hcode : me.roomCode = some code) (hne : code ≠ "")
    (hroom : JsMap.get s.rooms code = some room) :
    handleMessage lib s ws me ClientMsg.reset rnd =
      handleReset lib s ws code room rnd := by
  simp [handleMessage, hcode, noRoomCode, hne, hroom]

theorem handleMove_rejected (lib : StrLib) (s : Server) (ws : Nat) (code : String)
    (room : Room) (index : Option Int) (rnd : Rand) (h : ¬MoveAccepted room ws index) :
    handleMove lib s ws code room index rnd = some (s, []) := by
  unfold handleMove
  split
  · rfl
  · next hst =>
    split
    · rfl
    · next p hp =>
      split
      · rfl
      · next hsym =>
        split
        · rfl
        · next i hi =>
          split
          · rfl
          · next hcell =>
            exfalso
            apply h
            refine ⟨by simpa using hst, ⟨p, hp, by simpa using hsym⟩, i, ?_,
              by simpa using hcell⟩
            exact (boardIndex_eq_some index i).mp hi

theorem handleMove_accepted (lib : StrLib) (s : Server) (ws : Nat) (code : String)
    (room : Room) (i : Fin 9) (rnd : Rand) (h : MoveAccepted room ws (some (i.val : Int))) :
    handleMove lib s ws code room (some (i.val : Int)) rnd =
      some ({ s with rooms := JsMap.set s.rooms code (applyMove lib room i rnd) },
        broadcastRoom lib
          { s with rooms := JsMap.set s.rooms code (applyMove lib room i rnd) } code) := by
  obtain ⟨hst, ⟨p, hp, hsym⟩, j, hj, hcell⟩ := h
  have hij : j = i := by
    simp only [Option.some.injEq, Nat.cast_inj] at hj
    exact Fin.ext hj.symm
  subst hij
  unfold handleMove
  rw [if_neg (by simp [hst]), hp]
  simp only
  rw [if_neg (by simp [hsym]), (boardIndex_eq_some _ j).mpr rfl]
  simp only
  rw [if_neg (by simp [hcell])]

/-- C3: a move that violates an acceptance condition (the room is not playing,
the sender is not a player, its symbol is not the turn, the index is not an
integer in `0..8`, or the cell is occupied), and a reset from a connection that
is not a player, leave the whole server state, hence the room, unchanged and
send no message. -/
theorem rejected_request_is_noop (lib : StrLib) (s : Server) (ws : Nat) (me : Conn)
    (code : String) (room : Room) (rnd : Rand)
    (hme : JsMap.get s.conns ws = some me) (hopen : me.isOpen = true)
    (hcode : me.roomCode = some code) (hne : code ≠ "")
    (hroom : JsMap.get s.rooms code = some room) :
    (∀ index, ¬MoveAccepted room ws index →
        step lib s (Event.message ws (ClientMsg.move index)) rnd = some (s, [])) ∧
      (JsMap.has room.players ws = false →
        step lib s (Event.message ws ClientMsg.reset) rnd = some (s, [])) ∧
      ∀ i : Fin 9, room.board i ≠ none →
        step lib s (Event.message ws (ClientMsg.move (some (i.val : Int)))) rnd =
          some (s, []) := by
  have hmove : ∀ index, ¬MoveAccepted room ws index →
      step lib s (Event.message ws (ClientMsg.move index)) rnd = some (s, []) := by
    intro index hrej
    rw [step_message lib s ws me _ rnd hme hopen,
      handleMessage_move lib s ws me index rnd code room hcode hne hroom]
    exact handleMove_rejected lib s ws code room index rnd hrej
  refine ⟨hmove, ?_, ?_⟩
  · intro hnp
    rw [step_message lib s ws me _ rnd hme hopen,
      handleMessage_reset lib s ws me rnd code room hcode hne hroom]
    unfold handleReset
    simp [hnp]
  · intro i hocc
    apply hmove
    rintro ⟨_, _, j, hj, hcell⟩
    have hij : j = i := by
      simp only [Option.some.injEq, Nat.cast_inj] at hj
      exact Fin.ext hj.symm
    subst hij
    exact hocc hcell

theorem watchedState_conn :
    JsMap.get watchedState.conns 3 =
      some { id := "c", roomCode := some "AAAAAA", name := some "Cat", isOpen := true } := by
  decide

theorem watchedRoom_get : JsMap.get watchedState.rooms "AAAAAA" = some watchedRoom :=
  eq_some_getD _ _ (by decide)

/-- C3 at the spectator Cat of the room `AAAAAA`: its move at cell 4 and its
reset change nothing and send nothing. -/
theorem rejected_request_is_noop_witness :
    JsMap.has watchedRoom.players 3 = false ∧ ¬MoveAccepted watchedRoom 3 (some 4) ∧
      step asciiLib watchedState (Event.message 3 (ClientMsg.move (some 4))) rand0 =
        some (watchedState, []) ∧
      step asciiLib watchedState (Event.message 3 ClientMsg.reset) rand0 =
        some (watchedState, []) := by
  have hnp : JsMap.has watchedRoom.players 3 = false := by decide
  have hrej : ¬MoveAccepted watchedRoom 3 (some 4) := by
    rintro ⟨_, ⟨p, hp, _⟩, _⟩
    have : (JsMap.get watchedRoom.players 3).isSome = true := by rw [hp]; rfl
    exact absurd this (by decide)
  have h := rejected_request_is_noop asciiLib watchedState 3
    { id := "c", roomCode := some "AAAAAA", name := some "Cat", isOpen := true }
    "AAAAAA" watchedRoom rand0 watchedState_conn rfl rfl (by decide) watchedRoom_get
  exact ⟨hnp, hrej, h.1 (some 4) hrej, h.2.1 hnp⟩

/-! ## Theorems: accepted moves -/

theorem accepted_move_step (lib : StrLib) (s : Server) (ws : Nat) (me : Conn)
    (code : String) (room : Room) (rnd : Rand) (i : Fin 9)
    (hme : JsMap.get s.conns ws = some me) (hopen : me.isOpen = true)
    (hcode : me.roomCode = some code) (hne : code ≠ "")
    (hroom : JsMap.get s.rooms code = some room)
    (hacc : MoveAccepted room ws (some (i.val : Int))) :
    ∃ s1 out, step lib s (Event.message ws (ClientMsg.move (some (i.val : Int)))) rnd =
        some (s1, out) ∧
      JsMap.get s1.rooms code = some (applyMove lib room i rnd) := by
  rw [step_message lib s ws me _ rnd hme hopen,
    handleMessage_move lib s ws me _ rnd code room hcode hne hroom,
    handleMove_accepted lib s ws code room i rnd hacc]
  exact ⟨_, _, rfl, JsMap.get_set_self _ _ _⟩

theorem isBoardFull_iff (b : Board) : isBoardFull b = true ↔ ∀ i, b i ≠ none := by
  unfold isBoardFull
  simp [List.all_eq_true, Option.isSome_iff_ne_none]

theorem applyMove_board (lib : StrLib) (room : Room) (i : Fin 9) (rnd : Rand) :
    (applyMove lib room i rnd).board = boardAfter room i rnd := by
  unfold applyMove boardAfter
  simp only
  split
  · simp
  · split <;> simp

theorem applyMove_lastMove (lib : StrLib) (room : Room) (i : Fin 9) (rnd : Rand) :
    (applyMove lib room i rnd).lastMove = some { index := i.val, tick := rnd.tick } := by
  unfold applyMove
  simp only
  split
  · simp
  · split <;> simp

theorem applyMove_players (lib : StrLib) (room : Room) (i : Fin 9) (rnd : Rand) :
    (applyMove lib room i rnd).players = room.players := by
  unfold applyMove
  simp only
  split
  · simp
  · split <;> simp

theorem applyMove_spectators (lib : StrLib) (room : Room) (i : Fin 9) (rnd : Rand) :
    (applyMove lib room i rnd).spectators = room.spectators := by
  unfold applyMove
  simp only
  split
  · simp
  · split <;> simp

theorem applyMove_win (lib : StrLib) (room : Room) (i : Fin 9) (rnd : Rand) (w : Sym)
    (hw : getWinner (boardAfter room i rnd) = some w) :
    (applyMove lib room i rnd).status = Status.over ∧
      (applyMove lib room i rnd).lastResult = some { winner := some w, draw := false } ∧
      (applyMove lib room i rnd).turn = room.turn := by
  unfold boardAfter at hw
  unfold applyMove
  simp only [hw, finalize_status, finalize_lastResult, finalize_turn, and_self]

theorem applyMove_draw (lib : StrLib) (room : Room) (i : Fin 9) (rnd : Rand)
    (hw : getWinner (boardAfter room i rnd) = none)
    (hfull : isBoardFull (boardAfter room i rnd) = true) :
    (applyMove lib room i rnd).status = Status.over ∧
      (applyMove lib room i rnd).lastResult = some { winner := none, draw := true } ∧
      (applyMove lib room i rnd).turn = room.turn := by
  unfold boardAfter at hw hfull
  unfold applyMove
  simp only [hw, hfull, if_true, finalize_status, finalize_lastResult, finalize_turn,
    and_self]

theorem applyMove_open (lib : StrLib) (room : Room) (i : Fin 9) (rnd : Rand)
    (hw : getWinner (boardAfter room i rnd) = none)
    (hfull : isBoardFull (boardAfter room i rnd) = false) :
    (applyMove lib room i rnd).status = room.status ∧
      (applyMove lib room i rnd).lastResult = room.lastResult ∧
      (applyMove lib room i rnd).turn = flipTurn room.turn ∧
      (applyMove lib room i rnd).scores = room.scores := by
  unfold boardAfter at hw hfull
  unfold applyMove
  simp only [hw, hfull, Bool.false_eq_true, if_false, and_self]

theorem flipTurn_ne (t : Sym) : flipTurn t ≠ t := by
  cases t <;> decide

theorem randomMark_cases (r : Nat) :
    (randomMark r = some Sym.X ∧ r % 3 = 0) ∨ (randomMark r = some Sym.O ∧ r % 3 = 1) ∨
      (randomMark r = none ∧ r % 3 = 2) := by
  unfold randomMark
  have h : r % 3 < 3 := Nat.mod_lt _ (by decide)
  by_cases h0 : r % 3 = 0
  · simp [h0]
  · by_cases h1 : r % 3 = 1
    · simp [h1]
    · right; right
      simp only [h0, h1, if_false, true_and]
      omega

theorem seatedState_reachable : Reachable asciiLib seatedState :=
  reachable_of_run asciiLib seatedGame Server.init seatedState Reachable.init
    (eq_some_getD _ _ (by decide))

theorem seatedState_conn :
    JsMap.get seatedState.conns 1 =
      some { id := "c", roomCode := some "AAAAAA", name := some "Ann", isOpen := true } := by
  decide

theorem seatedRoom_get : JsMap.get seatedState.rooms "AAAAAA" = some seatedRoom :=
  eq_some_getD _ _ (by decide)

theorem seatedRoom_accepts (i : Fin 9) : MoveAccepted seatedRoom 1 (some (i.val : Int)) := by
  refine ⟨by decide,
    ⟨{ id := "c", name := "Ann", symbol := some Sym.X }, by decide, by decide⟩, i, rfl, ?_⟩
  revert i
  decide

/-- C4, as stated, fails: in the playing room of Ann (X) and Bob (O), Ann's
accepted move at cell 4 with the third outcome of `randomMark` leaves
`board[4]` empty, neither `"X"` nor `"O"`, while `lastMove.index` is 4. -/
theorem accepted_move_mark_empty :
    Reachable asciiLib seatedState ∧
      JsMap.get seatedState.rooms "AAAAAA" = some seatedRoom ∧
      seatedRoom.status = Status.playing ∧
      (JsMap.values seatedRoom.players).map Player.symbol = [some Sym.X, some Sym.O] ∧
      MoveAccepted seatedRoom 1 (some 4) ∧
      ((step asciiLib seatedState (Event.message 1 (ClientMsg.move (some 4))) randEmpty).bind
        fun o => JsMap.get o.1.rooms "AAAAAA") = some emptyMarkRoom ∧
      emptyMarkRoom.lastMove = some { index := 4, tick := 0 } ∧
      emptyMarkRoom.board 4 = none ∧
      ¬(emptyMarkRoom.board 4 = some Sym.X ∨ emptyMarkRoom.board 4 = some Sym.O) := by
  refine ⟨seatedState_reachable, seatedRoom_get, by decide, by decide, seatedRoom_accepts 4,
    eq_some_getD _ _ (by decide), by decide, by decide, by decide⟩

/-- C4, amended: after an accepted move at index `i`, `board[i]` is the random
mark drawn, which is `"X"`, `"O"` or the empty string (the cell stays empty on
the third outcome of the draw), and `lastMove.index` equals `i`. -/
theorem accepted_move_writes_mark (lib : StrLib) (s : Server) (ws : Nat) (me : Conn)
    (code : String) (room : Room) (rnd : Rand) (i : Fin 9)
    (hme : JsMap.get s.conns ws = some me) (hopen : me.isOpen = true)
    (hcode : me.roomCode = some code) (hne : code ≠ "")
    (hroom : JsMap.get s.rooms code = some room)
    (hacc : MoveAccepted room ws (some (i.val : Int))) :
    ∃ s1 out r1,
      step lib s (Event.message ws (ClientMsg.move (some (i.val : Int)))) rnd =
        some (s1, out) ∧
      JsMap.get s1.rooms code = some r1 ∧
      r1.board i = randomMark rnd.mark ∧
      ((r1.board i = some Sym.X ∧ rnd.mark % 3 = 0) ∨
        (r1.board i = some Sym.O ∧ rnd.mark % 3 = 1) ∨
        (r1.board i = none ∧ rnd.mark % 3 = 2)) ∧
      r1.lastMove = some { index := i.val, tick := rnd.tick } := by
  obtain ⟨s1, out, hstep, hget⟩ :=
    accepted_move_step lib s ws me code room rnd i hme hopen hcode hne hroom hacc
  have hb : (applyMove lib room i rnd).board i = randomMark rnd.mark := by
    rw [applyMove_board]
    simp [boardAfter]
  refine ⟨s1, out, _, hstep, hget, hb, ?_, applyMove_lastMove lib room i rnd⟩
  rw [hb]
  exact randomMark_cases rnd.mark

/-- C4, amended, at Ann's move at cell 4 in the room of Ann and Bob. -/
theorem accepted_move_writes_mark_witness :
    MoveAccepted seatedRoom 1 (some 4) ∧
      ∃ s1 out r1,
        step asciiLib seatedState (Event.message 1 (ClientMsg.move (some 4))) rand0 =
          some (s1, out) ∧
        JsMap.get s1.rooms "AAAAAA" = some r1 ∧
        r1.board 4 = randomMark rand0.mark ∧
        ((r1.board 4 = some Sym.X ∧ rand0.mark % 3 = 0) ∨
          (r1.board 4 = some Sym.O ∧ rand0.mark % 3 = 1) ∨
          (r1.board 4 = none ∧ rand0.mark % 3 = 2)) ∧
        r1.lastMove = some { index := 4, tick := rand0.tick } :=
  ⟨seatedRoom_accepts 4,
    accepted_move_writes_mark asciiLib seatedState 1
      { id := "c", roomCode := some "AAAAAA", name := some "Ann", isOpen := true }
      "AAAAAA" seatedRoom rand0 4 seatedState_conn rfl rfl (by decide) seatedRoom_get
      (seatedRoom_accepts 4)⟩

/-- C5: after an accepted move, with `bAfter` the board once the random mark is
written at the index: if `getWinner(bAfter)` is a symbol `w` the status becomes
`"over"`, `lastResult` records the winner `w` and the turn is unchanged;
otherwise if `bAfter` has no empty cell the status becomes `"over"`, `lastResult`
records a draw and the turn is unchanged; otherwise the status stays
`"playing"`, `lastResult` is unchanged and the turn flips.  The turn changes
exactly when there is no winner and an empty cell is left. -/
theorem accepted_move_outcome (lib : StrLib) (s : Server) (ws : Nat) (me : Conn)
    (code : String) (room : Room) (rnd : Rand) (i : Fin 9)
    (hme : JsMap.get s.conns ws = some me) (hopen : me.isOpen = true)
    (hcode : me.roomCode = some code) (hne : code ≠ "")
    (hroom : JsMap.get s.rooms code = some room)
    (hacc : MoveAccepted room ws (some (i.val : Int))) :
    ∃ s1 out r1,
      step lib s (Event.message ws (ClientMsg.move (some (i.val : Int)))) rnd =
        some (s1, out) ∧
      JsMap.get s1.rooms code = some r1 ∧
      r1.board = boardAfter room i rnd ∧
      (∀ j, j ≠ i → r1.board j = room.board j) ∧
      (∀ w, getWinner (boardAfter room i rnd) = some w →
        r1.status = Status.over ∧
          r1.lastResult = some { winner := some w, draw := false } ∧
          r1.turn = room.turn) ∧
      (getWinner (boardAfter room i rnd) = none →
        (∀ j, boardAfter room i rnd j ≠ none) →
        r1.status = Status.over ∧
          r1.lastResult = some { winner := none, draw := true } ∧
          r1.turn = room.turn) ∧
      (getWinner (boardAfter room i rnd) = none →
        (∃ j, boardAfter room i rnd j = none) →
        r1.status = Status.playing ∧ r1.lastResult = room.lastResult ∧
          (room.turn = Sym.X → r1.turn = Sym.O) ∧ (room.turn = Sym.O → r1.turn = Sym.X)) ∧
      (r1.turn ≠ room.turn ↔
        getWinner (boardAfter room i rnd) = none ∧ ∃ j, boardAfter room i rnd j = none) := by
  obtain ⟨s1, out, hstep, hget⟩ :=
    accepted_move_step lib s ws me code room rnd i hme hopen hcode hne hroom hacc
  have hnotfull : (∃ j, boardAfter room i rnd j = none) →
      isBoardFull (boardAfter room i rnd) = false := by
    rintro ⟨j, hj⟩
    cases hf : isBoardFull (boardAfter room i rnd) with
    | false => rfl
    | true => exact absurd hj ((isBoardFull_iff _).mp hf j)
  refine ⟨s1, out, _, hstep, hget, applyMove_board lib room i rnd, ?_, ?_, ?_, ?_, ?_⟩
  · intro j hj
    rw [applyMove_board]
    simp [boardAfter, Function.update_noteq hj]
  · intro w hw
    exact applyMove_win lib room i rnd w hw
  · intro hw hfull
    exact applyMove_draw lib room i rnd hw ((isBoardFull_iff _).mpr hfull)
  · intro hw hex
    obtain ⟨h1, h2, h3, _⟩ := applyMove_open lib room i rnd hw (hnotfull hex)
    refine ⟨by rw [h1]; exact hacc.1, h2, ?_, ?_⟩
    · intro ht; rw [h3, ht]; rfl
    · intro ht; rw [h3, ht]; rfl
  · constructor
    · intro hturn
      cases hw : getWinner (boardAfter room i rnd) with
      | some w => exact absurd (applyMove_win lib room i rnd w hw).2.2 hturn
      | none =>
        refine ⟨rfl, ?_⟩
        by_contra hno
        have hfull : ∀ j, boardAfter room i rnd j ≠ none := fun j hj => hno ⟨j, hj⟩
        exact hturn (applyMove_draw lib room i rnd hw ((isBoardFull_iff _).mpr hfull)).2.2
    · rintro ⟨hw, hex⟩
      rw [(applyMove_open lib room i rnd hw (hnotfull hex)).2.2.1]
      exact flipTurn_ne _

/-- C5 at Ann's move at cell 4 in the room of Ann and Bob. -/
theorem accepted_move_outcome_witness :
    MoveAccepted seatedRoom 1 (some 4) ∧
      ∃ s1 out r1,
        step asciiLib seatedState (Event.message 1 (ClientMsg.move (some 4))) rand0 =
          some (s1, out) ∧
        JsMap.get s1.rooms "AAAAAA" = some r1 ∧
        r1.board = boardAfter seatedRoom 4 rand0 ∧
        (∀ j, j ≠ 4 → r1.board j = seatedRoom.board j) ∧
        (∀ w, getWinner (boardAfter seatedRoom 4 rand0) = some w →
          r1.status = Status.over ∧
            r1.lastResult = some { winner := some w, draw := false } ∧
            r1.turn = seatedRoom.turn) ∧
        (getWinner (boardAfter seatedRoom 4 rand0) = none →
          (∀ j, boardAfter seatedRoom 4 rand0 j ≠ none) →
          r1.status = Status.over ∧
            r1.lastResult = some { winner := none, draw := true } ∧
            r1.turn = seatedRoom.turn) ∧
        (getWinner (boardAfter seatedRoom 4 rand0) = none →
          (∃ j, boardAfter seatedRoom 4 rand0 j = none) →
          r1.status = Status.playing ∧ r1.lastResult = seatedRoom.lastResult ∧
            (seatedRoom.turn = Sym.X → r1.turn = Sym.O) ∧
            (seatedRoom.turn = Sym.O → r1.turn = Sym.X)) ∧
        (r1.turn ≠ seatedRoom.turn ↔
          getWinner (boardAfter seatedRoom 4 rand0) = none ∧
            ∃ j, boardAfter seatedRoom 4 rand0 j = none) :=
  ⟨seatedRoom_accepts 4,
    accepted_move_outcome asciiLib seatedState 1
      { id := "c", roomCode := some "AAAAAA", name := some "Ann", isOpen := true }
      "AAAAAA" seatedRoom rand0 4 seatedState_conn rfl rfl (by decide) seatedRoom_get
      (seatedRoom_accepts 4)⟩

/-! ## Theorems: scores -/

theorem JsMap.get_modify {κ α : Type} [DecidableEq κ] (m : JsMap κ α) (k k2 : κ)
    (f : α → α) :
    JsMap.get (JsMap.modify m k f) k2 =
      if k = k2 then (JsMap.get m k).map f else JsMap.get m k2 := by
  unfold JsMap.modify
  cases h : JsMap.get m k with
  | none =>
    by_cases hk : k = k2
    · subst hk; simp [h]
    · simp [hk]
  | some v =>
    by_cases hk : k = k2
    · subst hk; simp [JsMap.get_set_self]
    · simp [hk, JsMap.get_set_ne _ _ _ _ hk]

theorem counter_modify_ne (f : ScoreEntry → Nat) (m : JsMap String ScoreEntry)
    (k k2 : String) (g : ScoreEntry → ScoreEntry) (hne : k ≠ k2) :
    counter f (JsMap.modify m k g) k2 = counter f m k2 := by
  unfold counter
  rw [JsMap.get_modify, if_neg hne]

theorem counter_modify_same (f : ScoreEntry → Nat) (m : JsMap String ScoreEntry)
    (k k2 : String) (g : ScoreEntry → ScoreEntry) (hg : ∀ e, f (g e) = f e) :
    counter f (JsMap.modify m k g) k2 = counter f m k2 := by
  by_cases hk : k = k2
  · subst hk
    unfold counter
    rw [JsMap.get_modify, if_pos rfl]
    cases JsMap.get m k with
    | none => rfl
    | some e => exact hg e
  · exact counter_modify_ne f m k k2 g hk

theorem counter_modify_self (f : ScoreEntry → Nat) (m : JsMap String ScoreEntry)
    (k : String) (g : ScoreEntry → ScoreEntry) (e : ScoreEntry)
    (he : JsMap.get m k = some e) : counter f (JsMap.modify m k g) k = f (g e) := by
  unfold counter
  rw [JsMap.get_modify, if_pos rfl, he]
  rfl

theorem JsMap.get_modify_isSome {κ α : Type} [DecidableEq κ] (m : JsMap κ α) (k k2 : κ)
    (f : α → α) : (JsMap.get (JsMap.modify m k f) k2).isSome = (JsMap.get m k2).isSome := by
  rw [JsMap.get_modify]
  by_cases hk : k = k2
  · subst hk; simp
  · simp [hk]

theorem ensureScore_get (lib : StrLib) (r : Room) (n k : String) :
    JsMap.get (ensureScore lib r n).scores k =
      if lib.toLowerCase n = k then
        some (match JsMap.get r.scores (lib.toLowerCase n) with
          | some e => { e with name := n }
          | none => { name := n, wins := 0, losses := 0, draws := 0 })
      else JsMap.get r.scores k := by
  unfold ensureScore
  by_cases hk : lib.toLowerCase n = k
  · subst hk
    cases h : JsMap.get r.scores (lib.toLowerCase n) <;> simp [JsMap.get_set_self]
  · cases h : JsMap.get r.scores (lib.toLowerCase n) <;>
      simp [hk, JsMap.get_set_ne _ _ _ _ hk]

theorem counter_ensureScore (lib : StrLib) (r : Room) (n k : String) (f : ScoreEntry → Nat)
    (hf : ∀ (e : ScoreEntry) (n : String), f { e with name := n } = f e)
    (h0 : ∀ n : String, f { name := n, wins := 0, losses := 0, draws := 0 } = 0) :
    counter f (ensureScore lib r n).scores k = counter f r.scores k := by
  unfold counter
  rw [ensureScore_get]
  by_cases hk : lib.toLowerCase n = k
  · subst hk
    cases h : JsMap.get r.scores (lib.toLowerCase n) with
    | none => simp [h0]
    | some e => simp [hf]
  · simp [hk]

theorem ensureScore_present (lib : StrLib) (r : Room) (n : String) :
    (JsMap.get (ensureScore lib r n).scores (lib.toLowerCase n)).isSome = true := by
  rw [ensureScore_get]
  simp

theorem ensureScore_keeps (lib : StrLib) (r : Room) (n k : String)
    (h : (JsMap.get r.scores k).isSome = true) :
    (JsMap.get (ensureScore lib r n).scores k).isSome = true := by
  rw [ensureScore_get]
  split
  · rfl
  · exact h

theorem counter_of_get (f : ScoreEntry → Nat) (m : JsMap String ScoreEntry) (k : String)
    (e : ScoreEntry) (he : JsMap.get m k = some e) : f e = counter f m k := by
  unfold counter
  rw [he]

theorem same_counters (m : JsMap String ScoreEntry) (k k2 : String) :
    counter ScoreEntry.wins (JsMap.modify m k addLoss) k2 = counter ScoreEntry.wins m k2 ∧
      counter ScoreEntry.wins (JsMap.modify m k addDraw) k2 = counter ScoreEntry.wins m k2 ∧
      counter ScoreEntry.losses (JsMap.modify m k addWin) k2 =
        counter ScoreEntry.losses m k2 ∧
      counter ScoreEntry.losses (JsMap.modify m k addDraw) k2 =
        counter ScoreEntry.losses m k2 ∧
      counter ScoreEntry.draws (JsMap.modify m k addWin) k2 = counter ScoreEntry.draws m k2 ∧
      counter ScoreEntry.draws (JsMap.modify m k addLoss) k2 =
        counter ScoreEntry.draws m k2 :=
  ⟨counter_modify_same ScoreEntry.wins m k k2 addLoss (fun _ => rfl),
    counter_modify_same ScoreEntry.wins m k k2 addDraw (fun _ => rfl),
    counter_modify_same ScoreEntry.losses m k k2 addWin (fun _ => rfl),
    counter_modify_same ScoreEntry.losses m k k2 addDraw (fun _ => rfl),
    counter_modify_same ScoreEntry.draws m k k2 addWin (fun _ => rfl),
    counter_modify_same ScoreEntry.draws m k k2 addLoss (fun _ => rfl)⟩

/-- The three counters after `applyResult`, in terms of the counters before,
when both keys have an entry and differ. -/
theorem applyResult_counters (m : JsMap String ScoreEntry) (kX kO : String)
    (res : LastResult) (hne : kX ≠ kO)
    (hX : (JsMap.get m kX).isSome = true) (hO : (JsMap.get m kO).isSome = true) :
    (res.draw = true →
        drawsOf (applyResult m kX kO res) kX = drawsOf m kX + 1 ∧
        drawsOf (applyResult m kX kO res) kO = drawsOf m kO + 1 ∧
        (∀ k, k ≠ kX → k ≠ kO → drawsOf (applyResult m kX kO res) k = drawsOf m k) ∧
        (∀ k, winsOf (applyResult m kX kO res) k = winsOf m k) ∧
        ∀ k, lossesOf (applyResult m kX kO res) k = lossesOf m k) ∧
      (res.draw = false → res.winner = some Sym.X →
        winsOf (applyResult m kX kO res) kX = winsOf m kX + 1 ∧
        lossesOf (applyResult m kX kO res) kO = lossesOf m kO + 1 ∧
        (∀ k, k ≠ kX → winsOf (applyResult m kX kO res) k = winsOf m k) ∧
        (∀ k, k ≠ kO → lossesOf (applyResult m kX kO res) k = lossesOf m k) ∧
        ∀ k, drawsOf (applyResult m kX kO res) k = drawsOf m k) ∧
      (res.draw = false → res.winner = some Sym.O →
        winsOf (applyResult m kX kO res) kO = winsOf m kO + 1 ∧
        lossesOf (applyResult m kX kO res) kX = lossesOf m kX + 1 ∧
        (∀ k, k ≠ kO → winsOf (applyResult m kX kO res) k = winsOf m k) ∧
        (∀ k, k ≠ kX → lossesOf (applyResult m kX kO res) k = lossesOf m k) ∧
        ∀ k, drawsOf (applyResult m kX kO res) k = drawsOf m k) := by
  obtain ⟨eX, heX⟩ := Option.isSome_iff_exists.mp hX
  obtain ⟨eO, heO⟩ := Option.isSome_iff_exists.mp hO
  have heO1 : ∀ g, JsMap.get (JsMap.modify m kX g) kO = some eO := by
    intro g; rw [JsMap.get_modify, if_neg hne, heO]
  have heX1 : ∀ g, JsMap.get (JsMap.modify m kO g) kX = some eX := by
    intro g; rw [JsMap.get_modify, if_neg (Ne.symm hne), heX]
  refine ⟨?_, ?_, ?_⟩
  · intro hd
    simp only [applyResult, hd, if_true, winsOf, lossesOf, drawsOf]
    refine ⟨?_, ?_, ?_, ?_, ?_⟩
    · rw [counter_modify_ne _ _ _ _ _ (Ne.symm hne), counter_modify_self _ _ _ _ _ heX,
        ← counter_of_get _ _ _ _ heX]
      rfl
    · rw [counter_modify_self _ _ _ _ _ (heO1 _), ← counter_of_get _ _ _ _ heO]
      rfl
    · intro k h1 h2
      rw [counter_modify_ne _ _ _ _ _ (Ne.symm h2), counter_modify_ne _ _ _ _ _ (Ne.symm h1)]
    · intro k
      rw [(same_counters _ _ _).2.1,
        (same_counters _ _ _).2.1]
    · intro k
      rw [(same_counters _ _ _).2.2.2.1,
        (same_counters _ _ _).2.2.2.1]
  · intro hd hw
    simp only [applyResult, hd, hw, Bool.false_eq_true, if_false, winsOf, lossesOf, drawsOf]
    refine ⟨?_, ?_, ?_, ?_, ?_⟩
    · rw [counter_modify_ne _ _ _ _ _ (Ne.symm hne), counter_modify_self _ _ _ _ _ heX,
        ← counter_of_get _ _ _ _ heX]
      rfl
    · rw [counter_modify_self _ _ _ _ _ (heO1 _), ← counter_of_get _ _ _ _ heO]
      rfl
    · intro k h1
      rw [(same_counters _ _ _).1,
        counter_modify_ne _ _ _ _ _ (Ne.symm h1)]
    · intro k h1
      rw [counter_modify_ne _ _ _ _ _ (Ne.symm h1),
        (same_counters _ _ _).2.2.1]
    · intro k
      rw [(same_counters _ _ _).2.2.2.2.2,
        (same_counters _ _ _).2.2.2.2.1]
  · intro hd hw
    simp only [applyResult, hd, hw, Bool.false_eq_true, if_false, winsOf, lossesOf, drawsOf]
    refine ⟨?_, ?_, ?_, ?_, ?_⟩
    · rw [counter_modify_ne _ _ _ _ _ hne, counter_modify_self _ _ _ _ _ heO,
        ← counter_of_get _ _ _ _ heO]
      rfl
    · rw [counter_modify_self _ _ _ _ _ (heX1 _), ← counter_of_get _ _ _ _ heX]
      rfl
    · intro k h1
      rw [(same_counters _ _ _).1,
        counter_modify_ne _ _ _ _ _ (Ne.symm h1)]
    · intro k h1
      rw [counter_modify_ne _ _ _ _ _ (Ne.symm h1),
        (same_counters _ _ _).2.2.1]
    · intro k
      rw [(same_counters _ _ _).2.2.2.2.2,
        (same_counters _ _ _).2.2.2.2.1]

theorem finalize_scores (lib : StrLib) (r : Room) (res : LastResult) (wa wb : Nat)
    (pa pb pX pO : Player) (hres : r.lastResult = some res)
    (hplayers : r.players = [(wa, pa), (wb, pb)])
    (hXO : (pX = pa ∧ pO = pb) ∨ (pX = pb ∧ pO = pa))
    (hX : pX.symbol = some Sym.X) (hO : pO.symbol = some Sym.O) :
    (finalizeScoresOnGameOver lib r).scores =
      applyResult (ensureScore lib (ensureScore lib r pX.name) pO.name).scores
        (lib.toLowerCase pX.name) (lib.toLowerCase pO.name) res := by
  unfold finalizeScoresOnGameOver
  rw [hres]
  simp only [hplayers, JsMap.values, List.map_cons, List.map_nil, List.length_cons,
    List.length_nil, ne_eq, not_true_eq_false, if_false]
  rcases hXO with ⟨h1, h2⟩ | ⟨h1, h2⟩
  · subst h1; subst h2
    simp [List.find?, hX, hO, show (Sym.X == Sym.O) = false from rfl]
  · subst h1; subst h2
    simp [List.find?, hX, hO, show (Sym.O == Sym.X) = false from rfl]

/-- The counters after `finalizeScoresOnGameOver`, for two players holding X
and O under distinct case-folded names. -/
theorem finalize_counters (lib : StrLib) (r : Room) (res : LastResult) (wa wb : Nat)
    (pa pb pX pO : Player) (hres : r.lastResult = some res)
    (hplayers : r.players = [(wa, pa), (wb, pb)])
    (hXO : (pX = pa ∧ pO = pb) ∨ (pX = pb ∧ pO = pa))
    (hX : pX.symbol = some Sym.X) (hO : pO.symbol = some Sym.O) :
    ∃ m : JsMap String ScoreEntry,
      (finalizeScoresOnGameOver lib r).scores =
        applyResult m (lib.toLowerCase pX.name) (lib.toLowerCase pO.name) res ∧
      (JsMap.get m (lib.toLowerCase pX.name)).isSome = true ∧
      (JsMap.get m (lib.toLowerCase pO.name)).isSome = true ∧
      (∀ k, winsOf m k = winsOf r.scores k) ∧ (∀ k, lossesOf m k = lossesOf r.scores k) ∧
      ∀ k, drawsOf m k = drawsOf r.scores k := by
  refine ⟨_, finalize_scores lib r res wa wb pa pb pX pO hres hplayers hXO hX hO,
    ensureScore_keeps _ _ _ _ (ensureScore_present _ _ _), ensureScore_present _ _ _,
    ?_, ?_, ?_⟩
  · intro k
    simp only [winsOf]
    rw [counter_ensureScore _ _ _ _ ScoreEntry.wins (fun _ _ => rfl) (fun _ => rfl),
      counter_ensureScore _ _ _ _ ScoreEntry.wins (fun _ _ => rfl) (fun _ => rfl)]
  · intro k
    simp only [lossesOf]
    rw [counter_ensureScore _ _ _ _ ScoreEntry.losses (fun _ _ => rfl) (fun _ => rfl),
      counter_ensureScore _ _ _ _ ScoreEntry.losses (fun _ _ => rfl) (fun _ => rfl)]
  · intro k
    simp only [drawsOf]
    rw [counter_ensureScore _ _ _ _ ScoreEntry.draws (fun _ _ => rfl) (fun _ => rfl),
      counter_ensureScore _ _ _ _ ScoreEntry.draws (fun _ _ => rfl) (fun _ => rfl)]

theorem applyMove_scores_win (lib : StrLib) (room : Room) (i : Fin 9) (rnd : Rand) (w : Sym)
    (hw : getWinner (boardAfter room i rnd) = some w) :
    ∃ r : Room, (applyMove lib room i rnd).scores = (finalizeScoresOnGameOver lib r).scores ∧
      r.lastResult = some { winner := some w, draw := false } ∧
      r.players = room.players ∧ r.scores = room.scores := by
  unfold boardAfter at hw
  unfold applyMove
  simp only [hw]
  exact ⟨_, rfl, rfl, rfl, rfl⟩

theorem applyMove_scores_draw (lib : StrLib) (room : Room) (i : Fin 9) (rnd : Rand)
    (hw : getWinner (boardAfter room i rnd) = none)
    (hfull : isBoardFull (boardAfter room i rnd) = true) :
    ∃ r : Room, (applyMove lib room i rnd).scores = (finalizeScoresOnGameOver lib r).scores ∧
      r.lastResult = some { winner := none, draw := true } ∧
      r.players = room.players ∧ r.scores = room.scores := by
  unfold boardAfter at hw hfull
  unfold applyMove
  simp only [hw, hfull, if_true]
  exact ⟨_, rfl, rfl, rfl, rfl⟩

/-- C6: in a room whose two players hold X and O under names that differ up to
case, an accepted move that completes a winning line for `w` adds exactly 1 to
the wins of the holder of `w` and exactly 1 to the losses of the other player;
one that fills the board without a winner adds exactly 1 to the draws of both;
every other counter of every score entry keeps its value. -/
theorem game_over_scores (lib : StrLib) (s : Server) (ws : Nat) (me : Conn)
    (code : String) (room : Room) (rnd : Rand) (i : Fin 9) (wa wb : Nat) (pa pb : Player)
    (hme : JsMap.get s.conns ws = some me) (hopen : me.isOpen = true)
    (hcode : me.roomCode = some code) (hne : code ≠ "")
    (hroom : JsMap.get s.rooms code = some room)
    (hacc : MoveAccepted room ws (some (i.val : Int)))
    (hplayers : room.players = [(wa, pa), (wb, pb)])
    (hsym : (pa.symbol = some Sym.X ∧ pb.symbol = some Sym.O) ∨
      (pa.symbol = some Sym.O ∧ pb.symbol = some Sym.X))
    (hnames : lib.toLowerCase pa.name ≠ lib.toLowerCase pb.name) :
    ∃ s1 out r1,
      step lib s (Event.message ws (ClientMsg.move (some (i.val : Int)))) rnd =
        some (s1, out) ∧
      JsMap.get s1.rooms code = some r1 ∧
      (∀ w pw pl, getWinner (boardAfter room i rnd) = some w →
        (pw = pa ∧ pl = pb) ∨ (pw = pb ∧ pl = pa) → pw.symbol = some w →
        winsOf r1.scores (lib.toLowerCase pw.name) =
            winsOf room.scores (lib.toLowerCase pw.name) + 1 ∧
          lossesOf r1.scores (lib.toLowerCase pl.name) =
            lossesOf room.scores (lib.toLowerCase pl.name) + 1 ∧
          (∀ k, k ≠ lib.toLowerCase pw.name → winsOf r1.scores k = winsOf room.scores k) ∧
          (∀ k, k ≠ lib.toLowerCase pl.name →
            lossesOf r1.scores k = lossesOf room.scores k) ∧
          ∀ k, drawsOf r1.scores k = drawsOf room.scores k) ∧
      (getWinner (boardAfter room i rnd) = none →
        (∀ j, boardAfter room i rnd j ≠ none) →
        drawsOf r1.scores (lib.toLowerCase pa.name) =
            drawsOf room.scores (lib.toLowerCase pa.name) + 1 ∧
          drawsOf r1.scores (lib.toLowerCase pb.name) =
            drawsOf room.scores (lib.toLowerCase pb.name) + 1 ∧
          (∀ k, k ≠ lib.toLowerCase pa.name → k ≠ lib.toLowerCase pb.name →
            drawsOf r1.scores k = drawsOf room.scores k) ∧
          (∀ k, winsOf r1.scores k = winsOf room.scores k) ∧
          ∀ k, lossesOf r1.scores k = lossesOf room.scores k) := by
  obtain ⟨s1, out, hstep, hget⟩ :=
    accepted_move_step lib s ws me code room rnd i hme hopen hcode hne hroom hacc
  -- the holders of X and O
  obtain ⟨pX, pO, hXO, hX, hO⟩ : ∃ pX pO : Player,
      ((pX = pa ∧ pO = pb) ∨ (pX = pb ∧ pO = pa)) ∧
        pX.symbol = some Sym.X ∧ pO.symbol = some Sym.O := by
    rcases hsym with ⟨h1, h2⟩ | ⟨h1, h2⟩
    · exact ⟨pa, pb, Or.inl ⟨rfl, rfl⟩, h1, h2⟩
    · exact ⟨pb, pa, Or.inr ⟨rfl, rfl⟩, h2, h1⟩
  have hkeys : lib.toLowerCase pX.name ≠ lib.toLowerCase pO.name := by
    rcases hXO with ⟨h1, h2⟩ | ⟨h1, h2⟩
    · rw [h1, h2]; exact hnames
    · rw [h1, h2]; exact Ne.symm hnames
  refine ⟨s1, out, _, hstep, hget, ?_, ?_⟩
  · intro w pw pl hw hpair hpw
    obtain ⟨r, hsc, hres, hpl, hrs⟩ := applyMove_scores_win lib room i rnd w hw
    obtain ⟨m, hm, hpX, hpO, hwins, hlosses, hdraws⟩ :=
      finalize_counters lib r _ wa wb pa pb pX pO hres (hpl.trans hplayers) hXO hX hO
    obtain ⟨_, hwinX, hwinO⟩ := applyResult_counters m _ _
      { winner := some w, draw := false } hkeys hpX hpO
    rw [hsc, hm, ← hrs]
    cases w with
    | X =>
      obtain ⟨c1, c2, c3, c4, c5⟩ := hwinX rfl rfl
      have hpwX : pw = pX ∧ pl = pO := by
        rcases hpair with ⟨h1, h2⟩ | ⟨h1, h2⟩ <;>
          rcases hXO with ⟨h3, h4⟩ | ⟨h3, h4⟩
        · exact ⟨h1.trans h3.symm, h2.trans h4.symm⟩
        · rw [h1, ← h4, hO] at hpw; exact absurd hpw (by decide)
        · rw [h1, ← h4, hO] at hpw; exact absurd hpw (by decide)
        · exact ⟨h1.trans h3.symm, h2.trans h4.symm⟩
      rw [hpwX.1, hpwX.2]
      refine ⟨?_, ?_, ?_, ?_, ?_⟩
      · rw [c1, hwins]
      · rw [c2, hlosses]
      · intro k hk; rw [c3 k hk, hwins]
      · intro k hk; rw [c4 k hk, hlosses]
      · intro k; rw [c5 k, hdraws]
    | O =>
      obtain ⟨c1, c2, c3, c4, c5⟩ := hwinO rfl rfl
      have hpwO : pw = pO ∧ pl = pX := by
        rcases hpair with ⟨h1, h2⟩ | ⟨h1, h2⟩ <;>
          rcases hXO with ⟨h3, h4⟩ | ⟨h3, h4⟩
        · rw [h1, ← h3, hX] at hpw; exact absurd hpw (by decide)
        · exact ⟨h1.trans h4.symm, h2.trans h3.symm⟩
        · exact ⟨h1.trans h4.symm, h2.trans h3.symm⟩
        · rw [h1, ← h3, hX] at hpw; exact absurd hpw (by decide)
      rw [hpwO.1, hpwO.2]
      refine ⟨?_, ?_, ?_, ?_, ?_⟩
      · rw [c1, hwins]
      · rw [c2, hlosses]
      · intro k hk; rw [c3 k hk, hwins]
      · intro k hk; rw [c4 k hk, hlosses]
      · intro k; rw [c5 k, hdraws]
  · intro hw hfull
    obtain ⟨r, hsc, hres, hpl, hrs⟩ :=
      applyMove_scores_draw lib room i rnd hw ((isBoardFull_iff _).mpr hfull)
    obtain ⟨m, hm, hpX, hpO, hwins, hlosses, hdraws⟩ :=
      finalize_counters lib r _ wa wb pa pb pX pO hres (hpl.trans hplayers) hXO hX hO
    obtain ⟨hdraw, _, _⟩ := applyResult_counters m _ _
      { winner := none, draw := true } hkeys hpX hpO
    obtain ⟨c1, c2, c3, c4, c5⟩ := hdraw rfl
    rw [hsc, hm, ← hrs]
    rcases hXO with ⟨h3, h4⟩ | ⟨h3, h4⟩
    · rw [← h3, ← h4]
      refine ⟨?_, ?_, ?_, ?_, ?_⟩
      · rw [c1, hdraws]
      · rw [c2, hdraws]
      · intro k hk1 hk2; rw [c3 k hk1 hk2, hdraws]
      · intro k; rw [c4 k, hwins]
      · intro k; rw [c5 k, hlosses]
    · rw [← h3, ← h4]
      refine ⟨?_, ?_, ?_, ?_, ?_⟩
      · rw [c2, hdraws]
      · rw [c1, hdraws]
      · intro k hk1 hk2; rw [c3 k hk2 hk1, hdraws]
      · intro k; rw [c4 k, hwins]
      · intro k; rw [c5 k, hlosses]

theorem preWinState_conn :
    JsMap.get preWinState.conns 1 =
      some { id := "c", roomCode := some "AAAAAA", name := some "Ann", isOpen := true } := by
  decide

theorem preWinRoom_get : JsMap.get preWinState.rooms "AAAAAA" = some preWinRoom :=
  eq_some_getD _ _ (by decide)

theorem preWinRoom_accepts : MoveAccepted preWinRoom 1 (some 2) :=
  ⟨by decide, ⟨{ id := "c", name := "Ann", symbol := some Sym.X }, by decide, by decide⟩,
    2, rfl, by decide⟩

/-- C6 at the winning move of the game `wonGame`: Ann, who holds X, plays cell 2
and completes the row 0-1-2 of `"X"`; her wins go from 0 to 1 and the losses of Bob
from 0 to 1. -/
theorem game_over_scores_witness :
    MoveAccepted preWinRoom 1 (some 2) ∧
      preWinRoom.players =
        [(1, { id := "c", name := "Ann", symbol := some Sym.X }),
         (2, { id := "c", name := "Bob", symbol := some Sym.O })] ∧
      getWinner (boardAfter preWinRoom 2 rand0) = some Sym.X ∧
      winsOf preWinRoom.scores "ann" = 0 ∧ lossesOf preWinRoom.scores "bob" = 0 ∧
      ∃ s1 out r1,
        step asciiLib preWinState (Event.message 1 (ClientMsg.move (some 2))) rand0 =
          some (s1, out) ∧
        JsMap.get s1.rooms "AAAAAA" = some r1 ∧
        winsOf r1.scores "ann" = 1 ∧ lossesOf r1.scores "bob" = 1 := by
  have hplayers : preWinRoom.players =
      [(1, { id := "c", name := "Ann", symbol := some Sym.X }),
       (2, { id := "c", name := "Bob", symbol := some Sym.O })] := by decide
  have hwin : getWinner (boardAfter preWinRoom 2 rand0) = some Sym.X := by decide
  have hw0 : winsOf preWinRoom.scores "ann" = 0 := by decide
  have hl0 : lossesOf preWinRoom.scores "bob" = 0 := by decide
  obtain ⟨s1, out, r1, hstep, hget, hwinner, _⟩ :=
    game_over_scores asciiLib preWinState 1
      { id := "c", roomCode := some "AAAAAA", name := some "Ann", isOpen := true }
      "AAAAAA" preWinRoom rand0 2 1 2
      { id := "c", name := "Ann", symbol := some Sym.X }
      { id := "c", name := "Bob", symbol := some Sym.O }
      preWinState_conn rfl rfl (by decide) preWinRoom_get preWinRoom_accepts hplayers
      (Or.inl ⟨rfl, rfl⟩) (by decide)
  obtain ⟨c1, c2, _⟩ := hwinner Sym.X _ _ hwin (Or.inl ⟨rfl, rfl⟩) rfl
  have e1 : asciiLib.toLowerCase "Ann" = "ann" := by decide
  have e2 : asciiLib.toLowerCase "Bob" = "bob" := by decide
  simp only [e1, e2, hw0, hl0] at c1 c2
  exact ⟨preWinRoom_accepts, hplayers, hwin, hw0, hl0, s1, out, r1, hstep, hget, c1, c2⟩

/-! ## Theorems: symbol assignment and reset -/

theorem shuffle_XO (rnd : Nat → Nat) :
    shuffle [Sym.X, Sym.O] rnd = [Sym.X, Sym.O] ∨
      shuffle [Sym.X, Sym.O] rnd = [Sym.O, Sym.X] := by
  have h : rnd 1 % 2 = 0 ∨ rnd 1 % 2 = 1 := by omega
  rcases h with h | h
  · right
    simp [shuffle, shuffleLoop, h, swap]
  · left
    simp [shuffle, shuffleLoop, h, swap]

theorem assign_two (room : Room) (rnd : Nat → Nat) (w0 w1 : Nat) (p0 p1 : Player)
    (h : room.players = [(w0, p0), (w1, p1)]) :
    ∃ a b : Sym, ((a = Sym.X ∧ b = Sym.O) ∨ (a = Sym.O ∧ b = Sym.X)) ∧
      assignRandomSymbols room rnd =
        { room with
          players := [(w0, { p0 with symbol := some a }), (w1, { p1 with symbol := some b })]
          turn := Sym.X } := by
  unfold assignRandomSymbols
  rw [h]
  simp only
  rcases shuffle_XO rnd with hs | hs
  · exact ⟨Sym.X, Sym.O, Or.inl ⟨rfl, rfl⟩, by rw [hs]; rfl⟩
  · exact ⟨Sym.O, Sym.X, Or.inr ⟨rfl, rfl⟩, by rw [hs]; rfl⟩

theorem assign_not_two (room : Room) (rnd : Nat → Nat) (h : room.players.length ≠ 2) :
    assignRandomSymbols room rnd = room := by
  unfold assignRandomSymbols
  split
  · next heq => rw [heq] at h; exact absurd rfl h
  · rfl

theorem length_two {α : Type} (l : List α) (h : l.length = 2) : ∃ x y, l = [x, y] := by
  match l, h with
  | [x, y], _ => exact ⟨x, y, rfl⟩

/-- C9: for a room with exactly two players and every outcome of the shuffle,
after `assignRandomSymbols(room)` one player holds `"X"`, the other `"O"`, and
`room.turn` is `"X"` (nothing else changes); for a room whose player count is
not 2, `assignRandomSymbols` changes nothing. -/
theorem assignRandomSymbols_spec (room : Room) (rnd : Nat → Nat) :
    (room.players.length = 2 →
        ∃ (w0 w1 : Nat) (p0 p1 : Player) (a b : Sym),
          room.players = [(w0, p0), (w1, p1)] ∧
          ((a = Sym.X ∧ b = Sym.O) ∨ (a = Sym.O ∧ b = Sym.X)) ∧
          (assignRandomSymbols room rnd).players =
            [(w0, { p0 with symbol := some a }), (w1, { p1 with symbol := some b })] ∧
          (assignRandomSymbols room rnd).turn = Sym.X ∧
          assignRandomSymbols room rnd =
            { room with
              players := (assignRandomSymbols room rnd).players, turn := Sym.X }) ∧
      (room.players.length ≠ 2 → assignRandomSymbols room rnd = room) := by
  refine ⟨?_, assign_not_two room rnd⟩
  intro hlen
  obtain ⟨⟨w0, p0⟩, ⟨w1, p1⟩, hpl⟩ := length_two room.players hlen
  obtain ⟨a, b, hab, heq⟩ := assign_two room rnd w0 w1 p0 p1 hpl
  refine ⟨w0, w1, p0, p1, a, b, hpl, hab, ?_, ?_, ?_⟩
  · rw [heq]
  · rw [heq]
  · rw [heq]

/-- C9 in the room of Ann and Bob, which has two players, and in the empty
room, which has none. -/
theorem assignRandomSymbols_spec_witness :
    seatedRoom.players.length = 2 ∧ emptyRoom.players.length ≠ 2 ∧
      (∃ (w0 w1 : Nat) (p0 p1 : Player) (a b : Sym),
        seatedRoom.players = [(w0, p0), (w1, p1)] ∧
        ((a = Sym.X ∧ b = Sym.O) ∨ (a = Sym.O ∧ b = Sym.X)) ∧
        (assignRandomSymbols seatedRoom rand0.shuffle).players =
          [(w0, { p0 with symbol := some a }), (w1, { p1 with symbol := some b })] ∧
        (assignRandomSymbols seatedRoom rand0.shuffle).turn = Sym.X ∧
        assignRandomSymbols seatedRoom rand0.shuffle =
          { seatedRoom with
            players := (assignRandomSymbols seatedRoom rand0.shuffle).players
            turn := Sym.X }) ∧
      assignRandomSymbols emptyRoom rand0.shuffle = emptyRoom :=
  ⟨by decide, by decide,
    (assignRandomSymbols_spec seatedRoom rand0.shuffle).1 (by decide),
    (assignRandomSymbols_spec emptyRoom rand0.shuffle).2 (by decide)⟩

theorem stickyKey_inj (lib : StrLib) (code a b : String)
    (h : stickyKey lib code a = stickyKey lib code b) :
    lib.toLowerCase a = lib.toLowerCase b := by
  unfold stickyKey at h
  have hd := congrArg String.data h
  simp only [String.data_append, List.append_cancel_left_eq] at hd
  exact String.ext hd

theorem setSticky_two (lib : StrLib) (code : String) (st : JsMap String (Option Sym))
    (p0 p1 : Player) :
    JsMap.get (setSticky lib code st [p0, p1]) (stickyKey lib code p1.name) =
        some p1.symbol ∧
      (lib.toLowerCase p0.name ≠ lib.toLowerCase p1.name →
        JsMap.get (setSticky lib code st [p0, p1]) (stickyKey lib code p0.name) =
          some p0.symbol) := by
  simp only [setSticky, List.foldl_cons, List.foldl_nil]
  refine ⟨JsMap.get_set_self _ _ _, fun hne => ?_⟩
  rw [JsMap.get_set_ne _ _ _ _ (fun h => hne (stickyKey_inj lib code _ _ h).symm)]
  exact JsMap.get_set_self _ _ _

/-- C10 fails on the code: `makeUniqueName` hands the second connection the
16-character name that the first player holds, so the two players share one
sticky key; after a reset by the first, who receives X while the second
receives O, the sticky identity under the key of the first player is O, not
its new symbol. -/
theorem reset_sticky_mismatch :
    Reachable asciiLib twinState ∧
      JsMap.get twinState.rooms "AAAAAA" = some twinRoom ∧
      JsMap.has twinRoom.players 1 = true ∧
      (step asciiLib twinState (Event.message 1 ClientMsg.reset) rand1).map Prod.fst =
        some twinResetState ∧
      JsMap.get twinResetState.rooms "AAAAAA" = some twinResetRoom ∧
      twinResetRoom.players =
        [(1, { id := "c", name := longName, symbol := some Sym.X }),
         (2, { id := "c", name := longName, symbol := some Sym.O })] ∧
      JsMap.get twinResetState.stickyIdentity (stickyKey asciiLib "AAAAAA" longName) =
        some (some Sym.O) ∧
      JsMap.get twinResetState.stickyIdentity (stickyKey asciiLib "AAAAAA" longName) ≠
        some (some Sym.X) := by
  refine ⟨reachable_of_run asciiLib twinGame Server.init twinState Reachable.init
      (eq_some_getD _ _ (by decide)),
    eq_some_getD _ _ (by decide), by decide, eq_some_getD _ _ (by decide),
    eq_some_getD _ _ (by decide), by decide, by decide, by decide⟩

/-- What a reset does guarantee in every room: a reset from a player of the room
empties the board, clears `lastMove` and `lastResult`, sets the turn to X and
keeps the names of the players, the spectators and the scores.  With two
players the status becomes
`"playing"`, one player holds X and the other O, the sticky identity under the
second player's key equals its new symbol, and so does the one under the first
player's key when the two names differ up to case.  Otherwise the status
becomes `"waiting"`. -/
theorem reset_by_player (lib : StrLib) (s : Server) (ws : Nat) (me : Conn)
    (code : String) (room : Room) (rnd : Rand)
    (hme : JsMap.get s.conns ws = some me) (hopen : me.isOpen = true)
    (hcode : me.roomCode = some code) (hne : code ≠ "")
    (hroom : JsMap.get s.rooms code = some room)
    (hplayer : JsMap.has room.players ws = true) :
    ∃ s1 out r1,
      step lib s (Event.message ws ClientMsg.reset) rnd = some (s1, out) ∧
      JsMap.get s1.rooms code = some r1 ∧
      (∀ j, r1.board j = none) ∧ r1.lastMove = none ∧ r1.lastResult = none ∧
      r1.turn = Sym.X ∧ r1.spectators = room.spectators ∧ r1.scores = room.scores ∧
      r1.players.map (fun e => (e.1, e.2.id, e.2.name)) =
        room.players.map (fun e => (e.1, e.2.id, e.2.name)) ∧
      (room.players.length = 2 →
        r1.status = Status.playing ∧
          ∃ (w0 w1 : Nat) (p0 p1 : Player) (a b : Sym),
            r1.players = [(w0, p0), (w1, p1)] ∧ p0.symbol = some a ∧ p1.symbol = some b ∧
            ((a = Sym.X ∧ b = Sym.O) ∨ (a = Sym.O ∧ b = Sym.X)) ∧
            JsMap.get s1.stickyIdentity (stickyKey lib code p1.name) = some p1.symbol ∧
            (lib.toLowerCase p0.name ≠ lib.toLowerCase p1.name →
              JsMap.get s1.stickyIdentity (stickyKey lib code p0.name) = some p0.symbol)) ∧
      (room.players.length ≠ 2 →
        r1.status = Status.waiting ∧ r1.players = room.players ∧
          s1.stickyIdentity = s.stickyIdentity) := by
  rw [step_message lib s ws me _ rnd hme hopen,
    handleMessage_reset lib s ws me rnd code room hcode hne hroom]
  unfold handleReset
  rw [if_neg (by simp [hplayer])]
  simp only
  by_cases hlen : room.players.length = 2
  · rw [if_pos hlen]
    obtain ⟨⟨w0, p0⟩, ⟨w1, p1⟩, hpl⟩ := length_two room.players hlen
    obtain ⟨a, b, hab, heq⟩ := assign_two
      { room with board := fun _ => none, lastResult := none, lastMove := none }
      rnd.shuffle w0 w1 p0 p1 hpl
    refine ⟨_, _, _, rfl, JsMap.get_set_self _ _ _, ?_, ?_, ?_, ?_, ?_, ?_, ?_, ?_, ?_⟩
    · intro j; simp
    · simp
    · simp
    · rw [heq]
    · simp
    · simp
    · rw [heq, hpl]; rfl
    · intro _
      refine ⟨rfl, w0, w1, { p0 with symbol := some a }, { p1 with symbol := some b }, a, b,
        by rw [heq], rfl, rfl, hab, ?_⟩
      simp only [heq, JsMap.values, List.map_cons, List.map_nil]
      exact setSticky_two lib code s.stickyIdentity _ _
    · intro h; exact absurd hlen h
  · rw [if_neg hlen]
    refine ⟨_, _, _, rfl, JsMap.get_set_self _ _ _, ?_, rfl, rfl, rfl, rfl, rfl, rfl, ?_, ?_⟩
    · intro j; rfl
    · intro h; exact absurd h hlen
    · intro _; exact ⟨rfl, rfl, rfl⟩

theorem seatedRoom_has : JsMap.has seatedRoom.players 1 = true := by
  decide

/-- The guarantee `reset_by_player` at a reset by Ann in the room of Ann and
Bob. -/
theorem reset_by_player_witness :
    JsMap.has seatedRoom.players 1 = true ∧
      ∃ s1 out r1,
        step asciiLib seatedState (Event.message 1 ClientMsg.reset) rand0 = some (s1, out) ∧
        JsMap.get s1.rooms "AAAAAA" = some r1 ∧
        (∀ j, r1.board j = none) ∧ r1.lastMove = none ∧ r1.lastResult = none ∧
        r1.turn = Sym.X ∧ r1.spectators = seatedRoom.spectators ∧
        r1.scores = seatedRoom.scores ∧
        r1.players.map (fun e => (e.1, e.2.id, e.2.name)) =
          seatedRoom.players.map (fun e => (e.1, e.2.id, e.2.name)) ∧
        (seatedRoom.players.length = 2 →
          r1.status = Status.playing ∧
            ∃ (w0 w1 : Nat) (p0 p1 : Player) (a b : Sym),
              r1.players = [(w0, p0), (w1, p1)] ∧ p0.symbol = some a ∧
              p1.symbol = some b ∧ ((a = Sym.X ∧ b = Sym.O) ∨ (a = Sym.O ∧ b = Sym.X)) ∧
              JsMap.get s1.stickyIdentity (stickyKey asciiLib "AAAAAA" p1.name) =
                some p1.symbol ∧
              (asciiLib.toLowerCase p0.name ≠ asciiLib.toLowerCase p1.name →
                JsMap.get s1.stickyIdentity (stickyKey asciiLib "AAAAAA" p0.name) =
                  some p0.symbol)) ∧
        (seatedRoom.players.length ≠ 2 →
          r1.status = Status.waiting ∧ r1.players = seatedRoom.players ∧
            s1.stickyIdentity = seatedState.stickyIdentity) :=
  ⟨seatedRoom_has,
    reset_by_player asciiLib seatedState 1
      { id := "c", roomCode := some "AAAAAA", name := some "Ann", isOpen := true }
      "AAAAAA" seatedRoom rand0 seatedState_conn rfl rfl (by decide) seatedRoom_get
      seatedRoom_has⟩

/-! ## Theorems: the collections of a reachable room are well formed -/

theorem JsMap.keys_set {κ α : Type} [DecidableEq κ] (m : JsMap κ α) (k : κ) (v : α) :
    (JsMap.set m k v).map Prod.fst =
      if k ∈ m.map Prod.fst then m.map Prod.fst else m.map Prod.fst ++ [k] := by
  induction m with
  | nil => simp [JsMap.set]
  | cons hd tl ih =>
    obtain ⟨k', v'⟩ := hd
    by_cases hk : k' = k
    · subst hk
      simp [JsMap.set]
    · have hk2 : ¬k = k' := fun h => hk h.symm
      simp only [JsMap.set, hk, if_false, List.map_cons, ih, List.mem_cons, hk2, false_or]
      split <;> simp

theorem JsMap.nodup_set {κ α : Type} [DecidableEq κ] (m : JsMap κ α) (k : κ) (v : α)
    (h : (m.map Prod.fst).Nodup) : ((JsMap.set m k v).map Prod.fst).Nodup := by
  rw [JsMap.keys_set]
  split
  · exact h
  · next hk =>
    rw [List.nodup_append]
    refine ⟨h, List.nodup_singleton k, ?_⟩
    intro a ha hb
    rw [List.mem_singleton] at hb
    exact hk (hb ▸ ha)

theorem JsMap.nodup_delete {κ α : Type} [DecidableEq κ] (m : JsMap κ α) (k : κ)
    (h : (m.map Prod.fst).Nodup) : ((JsMap.delete m k).map Prod.fst).Nodup :=
  List.Nodup.sublist (List.Sublist.map _ (List.filter_sublist _)) h

theorem JsMap.length_delete_le {κ α : Type} [DecidableEq κ] (m : JsMap κ α) (k : κ) :
    (JsMap.delete m k).length ≤ m.length :=
  List.length_filter_le _ _

theorem JsMap.nodup_modify {κ α : Type} [DecidableEq κ] (m : JsMap κ α) (k : κ)
    (f : α → α) (h : (m.map Prod.fst).Nodup) :
    ((JsMap.modify m k f).map Prod.fst).Nodup := by
  unfold JsMap.modify
  split
  · exact JsMap.nodup_set _ _ _ h
  · exact h

theorem setAdd_nodup (xs : List Nat) (x : Nat) (h : xs.Nodup) : (setAdd xs x).Nodup := by
  unfold setAdd
  split
  · exact h
  · next hx =>
    rw [List.nodup_append]
    refine ⟨h, List.nodup_singleton x, ?_⟩
    intro a ha hb
    rw [List.mem_singleton] at hb
    exact hx (hb ▸ ha)

theorem setDelete_nodup (xs : List Nat) (x : Nat) (h : xs.Nodup) :
    (setDelete xs x).Nodup :=
  List.Nodup.sublist (List.filter_sublist _) h

theorem ensureScore_scores_nodup (lib : StrLib) (r : Room) (n : String)
    (h : (r.scores.map Prod.fst).Nodup) :
    ((ensureScore lib r n).scores.map Prod.fst).Nodup := by
  unfold ensureScore
  split <;> exact JsMap.nodup_set _ _ _ h

theorem applyResult_nodup (m : JsMap String ScoreEntry) (kX kO : String) (res : LastResult)
    (h : (m.map Prod.fst).Nodup) : ((applyResult m kX kO res).map Prod.fst).Nodup := by
  unfold applyResult
  split
  · exact JsMap.nodup_modify _ _ _ (JsMap.nodup_modify _ _ _ h)
  · split
    · exact JsMap.nodup_modify _ _ _ (JsMap.nodup_modify _ _ _ h)
    · exact JsMap.nodup_modify _ _ _ (JsMap.nodup_modify _ _ _ h)
    · exact h

theorem finalize_scores_nodup (lib : StrLib) (r : Room) (h : (r.scores.map Prod.fst).Nodup) :
    ((finalizeScoresOnGameOver lib r).scores.map Prod.fst).Nodup := by
  unfold finalizeScoresOnGameOver
  split
  · exact h
  · split
    · exact h
    · split
      · exact applyResult_nodup _ _ _ _
          (ensureScore_scores_nodup _ _ _ (ensureScore_scores_nodup _ _ _ h))
      · exact h

theorem assign_players_keys (r : Room) (rnd : Nat → Nat) :
    (assignRandomSymbols r rnd).players.map Prod.fst = r.players.map Prod.fst := by
  unfold assignRandomSymbols
  split
  · next h => simp [h]
  · rfl

theorem applyMove_clients (lib : StrLib) (room : Room) (i : Fin 9) (rnd : Rand) :
    (applyMove lib room i rnd).clients = room.clients := by
  unfold applyMove
  simp only
  split
  · simp
  · split <;> simp

theorem applyMove_scores_nodup (lib : StrLib) (room : Room) (i : Fin 9) (rnd : Rand)
    (h : (room.scores.map Prod.fst).Nodup) :
    ((applyMove lib room i rnd).scores.map Prod.fst).Nodup := by
  unfold applyMove
  simp only
  split
  · exact finalize_scores_nodup _ _ h
  · split
    · exact finalize_scores_nodup _ _ h
    · exact h

theorem seatPlayer_frame (lib : StrLib) (s : Server) (ws : Nat) (me : Conn)
    (code : String) (room : Room) (name : String) (rnd : Rand) :
    (seatPlayer lib s ws me code room name rnd).1.clients = room.clients ∧
      (seatPlayer lib s ws me code room name rnd).1.spectators = room.spectators ∧
      (seatPlayer lib s ws me code room name rnd).1.scores = room.scores ∧
      (seatPlayer lib s ws me code room name rnd).1.board = room.board ∧
      (seatPlayer lib s ws me code room name rnd).1.players.map Prod.fst =
        (JsMap.set room.players ws
          { id := me.id, name := name,
            symbol := stickySymbol
              (JsMap.get s.stickyIdentity (stickyKey lib code name)) }).map Prod.fst := by
  unfold seatPlayer
  simp only
  split
  · split <;> simp [assign_players_keys]
  · simp

theorem wellFormed_invariant (lib : StrLib) : RoomInvariant lib WellFormed where
  create := by
    intro ws id name
    refine ⟨?_, ?_, ?_, ?_, ?_⟩
    · simp [emptyRoom, JsMap.set]
    · simp [emptyRoom]
    · exact ensureScore_scores_nodup _ _ _ (by simp [emptyRoom])
    · simp [emptyRoom, setAdd]
    · simp [emptyRoom, JsMap.set]
  seat := by
    intro s ws me code room name rnd h hlt
    obtain ⟨h1, h2, h3, h4, _⟩ := h
    obtain ⟨f1, f2, f3, _, f5⟩ := seatPlayer_frame lib s ws me code
      (ensureScore lib { room with clients := setAdd room.clients ws } name) name rnd
    refine ⟨?_, ?_, ?_, ?_, ?_⟩
    · rw [f5]
      exact JsMap.nodup_set _ _ _ (by simpa using h1)
    · rw [f2]; simpa using h2
    · rw [f3]; exact ensureScore_scores_nodup _ _ _ h3
    · rw [f1]; simpa using setAdd_nodup _ _ h4
    · have hl := congrArg List.length f5
      simp only [List.length_map] at hl
      rw [hl]
      have := JsMap.length_set_le
        (ensureScore lib { room with clients := setAdd room.clients ws } name).players ws
        { id := me.id, name := name,
          symbol := stickySymbol (JsMap.get s.stickyIdentity (stickyKey lib code name)) }
      simp only [ensureScore_players] at this hlt ⊢
      omega
  spectate := by
    intro ws id name room h _
    obtain ⟨h1, h2, h3, h4, h5⟩ := h
    refine ⟨by simpa using h1, ?_, ?_, by simpa using setAdd_nodup _ _ h4, by simpa using h5⟩
    · exact JsMap.nodup_set _ _ _ h2
    · exact ensureScore_scores_nodup _ _ _ h3
  resetTwo := by
    intro ws room rnd h _ _
    obtain ⟨h1, h2, h3, h4, h5⟩ := h
    refine ⟨?_, by simpa using h2, by simpa using h3, by simpa using h4, by simpa using h5⟩
    simp only [assign_players_keys]
    exact h1
  resetOther := by
    intro ws room h _ _
    exact h
  move := by
    intro ws room idx rnd h _
    obtain ⟨h1, h2, h3, h4, h5⟩ := h
    refine ⟨?_, ?_, applyMove_scores_nodup _ _ _ _ h3, ?_, ?_⟩
    · rw [applyMove_players]; exact h1
    · rw [applyMove_spectators]; exact h2
    · rw [applyMove_clients]; exact h4
    · rw [applyMove_players]; exact h5
  close := by
    intro ws room h
    obtain ⟨h1, h2, h3, h4, h5⟩ := h
    refine ⟨JsMap.nodup_delete _ _ h1, JsMap.nodup_delete _ _ h2, h3,
      setDelete_nodup _ _ h4, ?_⟩
    have := JsMap.length_delete_le room.players ws
    simp only
    omega

/-- In every room of every reachable state, no connection occurs twice among the
players, the spectators or the clients, no key occurs twice among the scores,
and there are at most two players. -/
theorem wellFormed_reachable (lib : StrLib) (s : Server) (hs : Reachable lib s)
    (code : String) (r : Room) (hr : JsMap.get s.rooms code = some r) : WellFormed r :=
  invariant_reachable lib WellFormed (wellFormed_invariant lib) s hs (code, r)
    (JsMap.mem_of_get _ _ _ hr)

/-! ## Theorems: status and number of players -/

theorem wonGameState_reachable : Reachable asciiLib wonGameState :=
  reachable_of_run asciiLib wonGame Server.init wonGameState Reachable.init
    (eq_some_getD _ _ (by decide))

theorem wonGameRoom_get : JsMap.get wonGameState.rooms "AAAAAA" = some wonGameRoom :=
  eq_some_getD _ _ (by decide)

/-- C1, as stated, fails: after the won game `wonGame` the room `AAAAAA` is
reachable, has exactly two players and its status is `"over"`, not `"playing"`. -/
theorem playing_iff_two_players_fails :
    Reachable asciiLib wonGameState ∧
      JsMap.get wonGameState.rooms "AAAAAA" = some wonGameRoom ∧
      wonGameRoom.players.length = 2 ∧ wonGameRoom.status = Status.over ∧
      ¬(wonGameRoom.status = Status.playing ↔ wonGameRoom.players.length = 2) := by
  have h2 : wonGameRoom.players.length = 2 := by decide
  have ho : wonGameRoom.status = Status.over := by decide
  refine ⟨wonGameState_reachable, wonGameRoom_get, h2, ho, ?_⟩
  rw [ho, h2]
  decide

/-- C1, amended: in every room of every reachable server state, the status is
`"playing"` or `"over"` exactly when the players map holds 2 entries (the
entries of the map being those of distinct connections); hence a `"playing"`
room has exactly 2 players and a room with 2 players is never `"waiting"`. -/
theorem active_iff_two_players (lib : StrLib) (s : Server) (hs : Reachable lib s)
    (code : String) (r : Room) (hr : JsMap.get s.rooms code = some r) :
    ((r.status = Status.playing ∨ r.status = Status.over) ↔ r.players.length = 2) ∧
      (r.status = Status.playing → r.players.length = 2) ∧
      (r.players.length = 2 → r.status ≠ Status.waiting) ∧
      (r.players.map Prod.fst).Nodup := by
  have h : StatusInv r := statusInv_reachable lib s hs (code, r) (JsMap.mem_of_get _ _ _ hr)
  refine ⟨h, fun hp => h.mp (Or.inl hp), fun hl hw => ?_,
    (invariant_reachable lib WellFormed (wellFormed_invariant lib) s hs (code, r)
      (JsMap.mem_of_get _ _ _ hr)).1⟩
  rcases h.mpr hl with hp | hp <;> rw [hw] at hp <;> exact absurd hp (by decide)

/-- C1, amended, at the room `AAAAAA` after the won game. -/
theorem active_iff_two_players_witness :
    Reachable asciiLib wonGameState ∧
      JsMap.get wonGameState.rooms "AAAAAA" = some wonGameRoom ∧
      (((wonGameRoom.status = Status.playing ∨ wonGameRoom.status = Status.over) ↔
          wonGameRoom.players.length = 2) ∧
        (wonGameRoom.status = Status.playing → wonGameRoom.players.length = 2) ∧
        (wonGameRoom.players.length = 2 → wonGameRoom.status ≠ Status.waiting) ∧
        (wonGameRoom.players.map Prod.fst).Nodup) :=
  ⟨wonGameState_reachable, wonGameRoom_get,
    active_iff_two_players asciiLib wonGameState wonGameState_reachable "AAAAAA"
      wonGameRoom wonGameRoom_get⟩

/-! ## Theorems: disconnects -/

theorem JsMap.get_delete_self {κ α : Type} [DecidableEq κ] (m : JsMap κ α) (k : κ) :
    JsMap.get (JsMap.delete m k) k = none := by
  induction m with
  | nil => rfl
  | cons hd tl ih =>
    obtain ⟨k', v'⟩ := hd
    by_cases hk : k' = k
    · simp [JsMap.delete, List.filter, hk] at ih ⊢
      exact ih
    · simp only [JsMap.delete, List.filter, hk, ne_eq, not_false_eq_true, decide_True,
        JsMap.get, if_false] at ih ⊢
      exact ih

theorem setDelete_not_mem (xs : List Nat) (x : Nat) : x ∉ setDelete xs x := by
  simp [setDelete, List.mem_filter]

/-- After the disconnect of a connection, the room its `roomCode` names, when it
is still in the registry, holds the connection in none of its collections. -/
theorem close_leaves_current_room (lib : StrLib) (s s1 : Server) (ws : Nat) (me : Conn)
    (code : String) (rnd : Rand) (out : List (Nat × ServerMsg)) (r1 : Room)
    (hme : JsMap.get s.conns ws = some me) (hopen : me.isOpen = true)
    (hcode : me.roomCode = some code) (hne : code ≠ "")
    (hstep : step lib s (Event.close ws) rnd = some (s1, out))
    (hr1 : JsMap.get s1.rooms code = some r1) :
    ws ∉ r1.clients ∧ JsMap.has r1.players ws = false ∧
      JsMap.has r1.spectators ws = false := by
  simp only [step, hme, hopen, if_true, handleClose, hcode, noRoomCode, Option.getD_some,
    beq_iff_eq, hne, Bool.false_eq_true, if_false] at hstep
  split at hstep
  · simp only [Option.some.injEq, Prod.mk.injEq] at hstep
    rw [← hstep.1] at hr1
    simp_all
  · next room hroom =>
    simp only [Option.some.injEq, Prod.mk.injEq] at hstep
    rw [← hstep.1] at hr1
    unfold cleanupEmptyRoom at hr1
    simp only [JsMap.get_set_self] at hr1
    split at hr1
    · simp only [JsMap.get_delete_self] at hr1
      exact absurd hr1 (by simp)
    · simp only [JsMap.get_set_self, Option.some.injEq] at hr1
      rw [← hr1]
      refine ⟨setDelete_not_mem _ _, ?_, ?_⟩
      · simp [JsMap.has, JsMap.get_delete_self]
      · simp [JsMap.has, JsMap.get_delete_self]

/-- C11 fails on the code: Ann creates the room `AAAAAA` and then, on the same
connection, joins the room `BBBBBB`; once her disconnect has been processed the
room `AAAAAA` is still in the registry and still holds her connection among
its clients and its players. -/
theorem disconnect_leaves_ghost :
    Reachable asciiLib ghostBefore ∧
      (step asciiLib ghostBefore (Event.close 1) rand0).map Prod.fst = some ghostState ∧
      Reachable asciiLib ghostState ∧
      JsMap.get ghostState.conns 1 =
        some { id := "c", roomCode := some "BBBBBB", name := some "Ann", isOpen := false } ∧
      JsMap.get ghostState.rooms "AAAAAA" = some ghostRoom ∧
      1 ∈ ghostRoom.clients ∧ JsMap.has ghostRoom.players 1 = true := by
  have hb : Reachable asciiLib ghostBefore :=
    reachable_of_run asciiLib ghostGame Server.init ghostBefore Reachable.init
      (eq_some_getD _ _ (by decide))
  have hstep : (step asciiLib ghostBefore (Event.close 1) rand0).map Prod.fst =
      some ghostState := eq_some_getD _ _ (by decide)
  refine ⟨hb, hstep, ?_, by decide, eq_some_getD _ _ (by decide), by decide, by decide⟩
  cases h : step asciiLib ghostBefore (Event.close 1) rand0 with
  | none => rw [h] at hstep; exact absurd hstep (by simp)
  | some o =>
    rw [h] at hstep
    simp only [Option.map_some', Option.some.injEq] at hstep
    obtain ⟨s1, out⟩ := o
    exact hstep ▸ Reachable.step hb h

/-! ## Theorems: symbols after a rejoin -/

/-- C15 fails on the code: after Bob (O) leaves, Cat joins and the shuffle
gives Cat X and Ann O, Cat leaves, and Bob rejoins under his name with his
sticky symbol O, the room has two players who both hold O; no one holds X. -/
theorem rejoin_gives_equal_symbols :
    Reachable asciiLib clashState ∧
      JsMap.get clashState.rooms "AAAAAA" = some clashRoom ∧
      clashRoom.status = Status.playing ∧
      clashRoom.players =
        [(1, { id := "c", name := "Ann", symbol := some Sym.O }),
         (4, { id := "c", name := "Bob", symbol := some Sym.O })] ∧
      ¬∃ p ∈ JsMap.values clashRoom.players, p.symbol = some Sym.X := by
  refine ⟨reachable_of_run asciiLib clashGame Server.init clashState Reachable.init
      (eq_some_getD _ _ (by decide)),
    eq_some_getD _ _ (by decide), by decide, by decide, by decide⟩

/-! ## Theorems: a finished board in a playing room -/

/-- C16 fails on the code: after X has won the row 0-1-2 and the spectator Cat
has disconnected, the room is `"playing"` again although `getWinner(board)` is
X; the next move, by Ann at cell 3, is accepted and counts the win a second
time. -/
theorem finished_board_playing :
    Reachable asciiLib reopenState ∧
      JsMap.get reopenState.rooms "AAAAAA" = some reopenRoom ∧
      reopenRoom.status = Status.playing ∧ getWinner reopenRoom.board = some Sym.X ∧
      winsOf reopenRoom.scores "ann" = 1 ∧
      MoveAccepted reopenRoom 1 (some 3) ∧
      ((step asciiLib reopenState (Event.message 1 (ClientMsg.move (some 3))) rand0).bind
        fun o => JsMap.get o.1.rooms "AAAAAA") = some recountRoom ∧
      winsOf recountRoom.scores "ann" = 2 := by
  refine ⟨reachable_of_run asciiLib reopenGame Server.init reopenState Reachable.init
      (eq_some_getD _ _ (by decide)),
    eq_some_getD _ _ (by decide), by decide, by decide, by decide,
    ⟨by decide, ⟨{ id := "c", name := "Ann", symbol := some Sym.X }, by decide, by decide⟩,
      3, rfl, by decide⟩,
    eq_some_getD _ _ (by decide), by decide⟩

/-! ## Theorems: joining a full room -/

theorem lobbyState_conn :
    JsMap.get lobbyState.conns 3 =
      some { id := "c", roomCode := none, name := none, isOpen := true } := by
  decide

theorem lobbyRoom_get :
    JsMap.get lobbyState.rooms (trim asciiLib (asciiLib.toUpperCase "AAAAAA")) =
      some lobbyRoom := by
  have hk : trim asciiLib (asciiLib.toUpperCase "AAAAAA") = "AAAAAA" := by decide
  rw [hk]
  exact eq_some_getD _ _ (by decide)

/-- C12: a `join_room` request for a room that has two players adds the
requester as a spectator, answers with the role `"spectator"`, and leaves the
players map, the board, the turn, the status, `lastMove` and `lastResult` of
the room unchanged; and in every room of every reachable state there are at
most two players. -/
theorem join_full_room (lib : StrLib) (s : Server) (ws : Nat) (me : Conn)
    (rawCode name : String) (rnd : Rand) (room : Room)
    (hme : JsMap.get s.conns ws = some me) (hopen : me.isOpen = true)
    (hroom : JsMap.get s.rooms (trim lib (lib.toUpperCase rawCode)) = some room)
    (hfull : room.players.length = 2) :
    (∃ s1 out r1,
      step lib s (Event.message ws (ClientMsg.join_room rawCode name)) rnd = some (s1, out) ∧
      JsMap.get s1.rooms (trim lib (lib.toUpperCase rawCode)) = some r1 ∧
      out.head? = some (ws, ServerMsg.room_joined (trim lib (lib.toUpperCase rawCode))
        "spectator" (makeUniqueName lib room (normalizeName lib name rnd.nameId) rnd)) ∧
      r1.spectators = JsMap.set room.spectators ws
        { id := me.id,
          name := makeUniqueName lib room (normalizeName lib name rnd.nameId) rnd } ∧
      JsMap.has r1.spectators ws = true ∧ ws ∈ r1.clients ∧
      r1.players = room.players ∧ r1.board = room.board ∧ r1.turn = room.turn ∧
      r1.status = room.status ∧ r1.lastMove = room.lastMove ∧
      r1.lastResult = room.lastResult) ∧
      ∀ s2, Reachable lib s2 → ∀ (c : String) (r : Room),
        JsMap.get s2.rooms c = some r → r.players.length ≤ 2 := by
  constructor
  · rw [step_message lib s ws me _ rnd hme hopen]
    simp only [handleMessage, handleJoinRoom, hroom, ensureScore_players, hfull,
      Nat.lt_irrefl, if_false]
    refine ⟨_, _, _, rfl, JsMap.get_set_self _ _ _, ?_, ?_, ?_, ?_, ?_, ?_, ?_, ?_, ?_, ?_⟩
    · simp [safeSend, JsMap.get_set_self, hopen]
    · simp
    · simp [JsMap.has, JsMap.get_set_self]
    · simp only [ensureScore_clients, setAdd]
      split
      · assumption
      · simp
    · simp
    · simp
    · simp
    · simp
    · simp
    · simp
  · intro s2 hs2 c r hr
    exact (invariant_reachable lib WellFormed (wellFormed_invariant lib) s2 hs2 (c, r)
      (JsMap.mem_of_get _ _ _ hr)).2.2.2.2

/-- C12 at a third connection joining the room of Ann and Bob. -/
theorem join_full_room_witness :
    lobbyRoom.players.length = 2 ∧
      (∃ s1 out r1,
        step asciiLib lobbyState (Event.message 3 (ClientMsg.join_room "AAAAAA" "Cat")) rand0 =
          some (s1, out) ∧
        JsMap.get s1.rooms (trim asciiLib (asciiLib.toUpperCase "AAAAAA")) = some r1 ∧
        out.head? = some (3, ServerMsg.room_joined (trim asciiLib (asciiLib.toUpperCase "AAAAAA"))
          "spectator" (makeUniqueName asciiLib lobbyRoom
            (normalizeName asciiLib "Cat" rand0.nameId) rand0)) ∧
        JsMap.has r1.spectators 3 = true ∧ r1.players = lobbyRoom.players ∧
        r1.board = lobbyRoom.board ∧ r1.turn = lobbyRoom.turn ∧
        r1.status = lobbyRoom.status ∧ r1.lastMove = lobbyRoom.lastMove ∧
        r1.lastResult = lobbyRoom.lastResult) ∧
      makeUniqueName asciiLib lobbyRoom (normalizeName asciiLib "Cat" rand0.nameId) rand0 =
        "Cat" := by
  have hfull : lobbyRoom.players.length = 2 := by decide
  obtain ⟨⟨s1, out, r1, h1, h2, h3, _, h5, _, h7, h8, h9, h10, h11, h12⟩, _⟩ :=
    join_full_room asciiLib lobbyState 3
      { id := "c", roomCode := none, name := none, isOpen := true }
      "AAAAAA" "Cat" rand0 lobbyRoom lobbyState_conn rfl lobbyRoom_get hfull
  exact ⟨hfull, ⟨s1, out, r1, h1, h2, h3, h5, h7, h8, h9, h10, h11, h12⟩, by decide⟩

/-! ## Theorems: the sticky identities are never removed -/

theorem JsMap.has_set {κ α : Type} [DecidableEq κ] (m : JsMap κ α) (k k2 : κ) (v : α) :
    JsMap.has (JsMap.set m k v) k2 = true ↔ k = k2 ∨ JsMap.has m k2 = true := by
  unfold JsMap.has
  by_cases hk : k = k2
  · subst hk
    simp [JsMap.get_set_self]
  · rw [JsMap.get_set_ne _ _ _ _ hk]
    simp [hk]

theorem setSticky_has (lib : StrLib) (code : String) (ps : List Player) :
    ∀ (st : JsMap String (Option Sym)) (k : String),
      JsMap.has (setSticky lib code st ps) k = true ↔
        JsMap.has st k = true ∨ ∃ p ∈ ps, k = stickyKey lib code p.name := by
  induction ps with
  | nil => intro st k; simp [setSticky]
  | cons p ps ih =>
    intro st k
    have hunfold : setSticky lib code st (p :: ps) =
        setSticky lib code (JsMap.set st (stickyKey lib code p.name) p.symbol) ps := rfl
    rw [hunfold, ih, JsMap.has_set]
    constructor
    · rintro ((h | h) | ⟨q, hq, hk⟩)
      · exact Or.inr ⟨p, List.mem_cons_self _ _, h.symm⟩
      · exact Or.inl h
      · exact Or.inr ⟨q, List.mem_cons_of_mem _ hq, hk⟩
    · rintro (h | ⟨q, hq, hk⟩)
      · exact Or.inl (Or.inr h)
      · rcases List.mem_cons.mp hq with rfl | hq
        · exact Or.inl (Or.inl hk.symm)
        · exact Or.inr ⟨q, hq, hk⟩

theorem JsMap.has_set_self {κ α : Type} [DecidableEq κ] (m : JsMap κ α) (k : κ) (v : α) :
    JsMap.has (JsMap.set m k v) k = true :=
  (JsMap.has_set m k k v).mpr (Or.inl rfl)

theorem JsMap.has_iff_mem_keys {κ α : Type} [DecidableEq κ] (m : JsMap κ α) (k : κ) :
    JsMap.has m k = true ↔ k ∈ m.map Prod.fst := by
  induction m with
  | nil => simp [JsMap.has, JsMap.get]
  | cons hd tl ih =>
    obtain ⟨k', v'⟩ := hd
    by_cases hk : k' = k
    · subst hk
      simp [JsMap.has, JsMap.get]
    · have hk2 : ¬k = k' := fun h => hk h.symm
      simp only [JsMap.has, JsMap.get, hk, if_false, List.map_cons, List.mem_cons, hk2,
        false_or] at ih ⊢
      exact ih

/-- What `seatPlayer` does to the sticky-identity map: when the requester is
seated as one of two players the room is playing and the map receives the
entries of its two players; otherwise the map is unchanged. -/
theorem seatPlayer_sticky (lib : StrLib) (s : Server) (ws : Nat) (me : Conn)
    (code : String) (room : Room) (name : String) (rnd : Rand) :
    ((seatPlayer lib s ws me code room name rnd).1.players.length = 2 ∧
        (seatPlayer lib s ws me code room name rnd).1.status = Status.playing ∧
        JsMap.has (seatPlayer lib s ws me code room name rnd).1.players ws = true ∧
        (seatPlayer lib s ws me code room name rnd).2 =
          setSticky lib code s.stickyIdentity
            (JsMap.values (seatPlayer lib s ws me code room name rnd).1.players)) ∨
      (seatPlayer lib s ws me code room name rnd).2 = s.stickyIdentity := by
  have hkeys := (seatPlayer_frame lib s ws me code room name rnd).2.2.2.2
  have hhas : JsMap.has (seatPlayer lib s ws me code room name rnd).1.players ws = true := by
    rw [JsMap.has_iff_mem_keys, hkeys, ← JsMap.has_iff_mem_keys]
    exact JsMap.has_set_self _ _ _
  have hlen := congrArg List.length hkeys
  simp only [List.length_map] at hlen
  revert hhas hlen
  unfold seatPlayer
  simp only
  split
  · next h2 =>
    intro hhas hlen
    left
    refine ⟨by rw [hlen]; exact h2, rfl, hhas, ?_⟩
    split <;> rfl
  · intro _ _
    right
    rfl

/-- What one step does to the sticky-identity map: nothing, or the update
`StickyUpdate` of a `join_room` or a `reset`; a disconnect does nothing to it. -/
theorem step_sticky (lib : StrLib) (s s1 : Server) (e : Event) (rnd : Rand)
    (out : List (Nat × ServerMsg)) (h : step lib s e rnd = some (s1, out)) :
    (s1.stickyIdentity = s.stickyIdentity ∨ StickyUpdate lib s s1 e) ∧
      ∀ ws, e = Event.close ws → s1.stickyIdentity = s.stickyIdentity := by
  cases e with
  | connection ws =>
    simp only [step, handleConnection] at h
    split at h
    · exact absurd h (by simp)
    · simp only [Option.some.injEq, Prod.mk.injEq] at h
      rw [← h.1]
      exact ⟨Or.inl rfl, fun _ h => by cases h⟩
  | message ws msg =>
    refine ⟨?_, fun _ h => by cases h⟩
    simp only [step] at h
    split at h
    · exact absurd h (by simp)
    · next me _ =>
      split at h
      swap
      · exact absurd h (by simp)
      cases msg with
      | invalid =>
        simp only [handleMessage, Option.some.injEq, Prod.mk.injEq] at h
        rw [← h.1]; exact Or.inl rfl
      | create_room name =>
        simp only [handleMessage, handleCreateRoom] at h
        split at h
        · exact absurd h (by simp)
        · split at h
          · exact absurd h (by simp)
          · simp only [Option.some.injEq, Prod.mk.injEq] at h
            rw [← h.1]; exact Or.inl rfl
      | join_room rawCode name =>
        simp only [handleMessage, handleJoinRoom] at h
        split at h
        · simp only [Option.some.injEq, Prod.mk.injEq] at h
          rw [← h.1]; exact Or.inl rfl
        · next room hg =>
          split at h
          · simp only [Option.some.injEq, Prod.mk.injEq] at h
            rw [← h.1]
            rcases seatPlayer_sticky lib s ws me (trim lib (lib.toUpperCase rawCode))
              (ensureScore lib { room with clients := setAdd room.clients ws }
                (makeUniqueName lib room (normalizeName lib name rnd.nameId) rnd))
              (makeUniqueName lib room (normalizeName lib name rnd.nameId) rnd) rnd with
              ⟨h1, h2, h3, h4⟩ | h5
            · exact Or.inr ⟨ws, _, _, Or.inl ⟨rawCode, name, rfl⟩, JsMap.get_set_self _ _ _,
                h1, h2, h3, h4⟩
            · exact Or.inl h5
          · simp only [Option.some.injEq, Prod.mk.injEq] at h
            rw [← h.1]; exact Or.inl rfl
      | reset =>
        simp only [handleMessage] at h
        split at h
        · simp only [Option.some.injEq, Prod.mk.injEq] at h
          rw [← h.1]; exact Or.inl rfl
        · split at h
          · simp only [Option.some.injEq, Prod.mk.injEq] at h
            rw [← h.1]; exact Or.inl rfl
          · next room hg =>
            simp only [handleReset] at h
            split at h
            · simp only [Option.some.injEq, Prod.mk.injEq] at h
              rw [← h.1]; exact Or.inl rfl
            · next hpl =>
              split at h
              · next hlen =>
                simp only [Option.some.injEq, Prod.mk.injEq] at h
                rw [← h.1]
                refine Or.inr ⟨ws, _, _, Or.inr rfl, JsMap.get_set_self _ _ _, ?_, rfl, ?_,
                  rfl⟩
                · simpa using hlen
                · rw [JsMap.has_iff_mem_keys]
                  simp only [assign_players_keys]
                  rw [← JsMap.has_iff_mem_keys]
                  simpa using hpl
              · simp only [Option.some.injEq, Prod.mk.injEq] at h
                rw [← h.1]; exact Or.inl rfl
      | move index =>
        simp only [handleMessage] at h
        split at h
        · simp only [Option.some.injEq, Prod.mk.injEq] at h
          rw [← h.1]; exact Or.inl rfl
        · split at h
          · simp only [Option.some.injEq, Prod.mk.injEq] at h
            rw [← h.1]; exact Or.inl rfl
          · simp only [handleMove] at h
            split at h
            · simp only [Option.some.injEq, Prod.mk.injEq] at h
              rw [← h.1]; exact Or.inl rfl
            · split at h
              · simp only [Option.some.injEq, Prod.mk.injEq] at h
                rw [← h.1]; exact Or.inl rfl
              · split at h
                · simp only [Option.some.injEq, Prod.mk.injEq] at h
                  rw [← h.1]; exact Or.inl rfl
                · split at h
                  · simp only [Option.some.injEq, Prod.mk.injEq] at h
                    rw [← h.1]; exact Or.inl rfl
                  · split at h
                    · simp only [Option.some.injEq, Prod.mk.injEq] at h
                      rw [← h.1]; exact Or.inl rfl
                    · simp only [Option.some.injEq, Prod.mk.injEq] at h
                      rw [← h.1]; exact Or.inl rfl
      | unknown =>
        simp only [handleMessage] at h
        split at h
        · simp only [Option.some.injEq, Prod.mk.injEq] at h
          rw [← h.1]; exact Or.inl rfl
        · split at h
          · simp only [Option.some.injEq, Prod.mk.injEq] at h
            rw [← h.1]; exact Or.inl rfl
          · simp only [Option.some.injEq, Prod.mk.injEq] at h
            rw [← h.1]; exact Or.inl rfl
  | close ws =>
    have hsame : s1.stickyIdentity = s.stickyIdentity := by
      simp only [step] at h
      split at h
      · exact absurd h (by simp)
      · split at h
        swap
        · exact absurd h (by simp)
        simp only [handleClose] at h
        split at h
        · simp only [Option.some.injEq, Prod.mk.injEq] at h
          rw [← h.1]
        · split at h
          · simp only [Option.some.injEq, Prod.mk.injEq] at h
            rw [← h.1]
          · simp only [Option.some.injEq, Prod.mk.injEq] at h
            rw [← h.1]
            unfold cleanupEmptyRoom
            split
            · rfl
            · split <;> rfl
    exact ⟨Or.inl hsame, fun _ _ => hsame⟩

theorem lastOneState_reachable : Reachable asciiLib lastOneState :=
  reachable_of_run asciiLib lastOneGame Server.init lastOneState Reachable.init
    (eq_some_getD _ _ (by decide))

theorem step_eq_of_isSome (lib : StrLib) (s : Server) (e : Event) (rnd : Rand)
    (h : (step lib s e rnd).isSome = true) :
    step lib s e rnd =
      some (((step lib s e rnd).map Prod.fst).getD Server.init,
        (step lib s e rnd).elim [] Prod.snd) := by
  cases hs : step lib s e rnd with
  | none => rw [hs] at h; exact absurd h (by simp)
  | some o => rfl

theorem goneState_step :
    step asciiLib lastOneState (Event.close 2) rand0 =
      some (goneState, (step asciiLib lastOneState (Event.close 2) rand0).elim [] Prod.snd) :=
  step_eq_of_isSome asciiLib lastOneState (Event.close 2) rand0 (by decide)

theorem joinedState_step :
    step asciiLib createdState (Event.message 2 (ClientMsg.join_room "AAAAAA" "Bob")) rand1 =
      some (joinedState,
        (step asciiLib createdState (Event.message 2 (ClientMsg.join_room "AAAAAA" "Bob"))
          rand1).elim [] Prod.snd) :=
  step_eq_of_isSome asciiLib createdState _ rand1 (by decide)

/-- C14, as stated, fails: after Ann and Bob, seated in the room `AAAAAA`, have
both disconnected, the room is destroyed and the sticky-identity map still
holds the entries of Ann and Bob keyed by its code. -/
theorem sticky_outlives_room :
    Reachable asciiLib lastOneState ∧
      JsMap.has lastOneState.rooms "AAAAAA" = true ∧
      (step asciiLib lastOneState (Event.close 2) rand0).map Prod.fst = some goneState ∧
      goneState.rooms.length = 0 ∧ JsMap.has goneState.rooms "AAAAAA" = false ∧
      JsMap.get goneState.stickyIdentity (stickyKey asciiLib "AAAAAA" "Ann") =
        some (some Sym.X) ∧
      JsMap.get goneState.stickyIdentity (stickyKey asciiLib "AAAAAA" "Bob") =
        some (some Sym.O) := by
  refine ⟨lastOneState_reachable, by decide, eq_some_getD _ _ (by decide), by decide,
    by decide, by decide, by decide⟩

/-- C14, amended: the sticky-identity map only grows.  No step of the server
removes a key from it; a disconnect, also the one that destroys a room, leaves
the map unchanged, so the entries keyed by the code of a destroyed room remain.
A step changes the map only as `StickyUpdate` says: the event is a `join_room`
or a `reset` from a connection that is, after it, one of the two players of a
playing room of the registry, and the map receives the entry of each of the two
players of that room, under the room code and the player name, holding the
player symbol.  Hence a key that a step adds is the key of one of the two
players of such a room, and after such an update the entry of every player of
the room is in the map. -/
theorem sticky_only_grows (lib : StrLib) (s s1 : Server) (e : Event) (rnd : Rand)
    (out : List (Nat × ServerMsg)) (h : step lib s e rnd = some (s1, out)) :
    (∀ k, JsMap.has s.stickyIdentity k = true → JsMap.has s1.stickyIdentity k = true) ∧
      (∀ ws, e = Event.close ws → s1.stickyIdentity = s.stickyIdentity) ∧
      (s1.stickyIdentity = s.stickyIdentity ∨ StickyUpdate lib s s1 e) ∧
      (∀ k, JsMap.has s1.stickyIdentity k = true → JsMap.has s.stickyIdentity k = false →
        ∃ (ws : Nat) (code : String) (room1 : Room) (p : Player),
          ((∃ rawCode name, e = Event.message ws (ClientMsg.join_room rawCode name)) ∨
            e = Event.message ws ClientMsg.reset) ∧
          JsMap.get s1.rooms code = some room1 ∧ room1.players.length = 2 ∧
          room1.status = Status.playing ∧ JsMap.has room1.players ws = true ∧
          p ∈ JsMap.values room1.players ∧ k = stickyKey lib code p.name) ∧
      (s1.stickyIdentity ≠ s.stickyIdentity →
        ∃ (code : String) (room1 : Room),
          JsMap.get s1.rooms code = some room1 ∧ room1.players.length = 2 ∧
          ∀ p ∈ JsMap.values room1.players,
            JsMap.has s1.stickyIdentity (stickyKey lib code p.name) = true) := by
  obtain ⟨hchange, hclose⟩ := step_sticky lib s s1 e rnd out h
  refine ⟨?_, hclose, hchange, ?_, ?_⟩
  · intro k hk
    rcases hchange with heq | ⟨_, code, room1, _, _, _, _, _, heq⟩
    · rw [heq]; exact hk
    · rw [heq]; exact (setSticky_has lib code _ _ k).mpr (Or.inl hk)
  · intro k hk1 hk0
    rcases hchange with heq | ⟨ws, code, room1, hev, hget, hlen, hst, hws, heq⟩
    · rw [heq, hk0] at hk1
      exact absurd hk1 (by simp)
    · rw [heq] at hk1
      rcases (setSticky_has lib code _ _ k).mp hk1 with hold | ⟨p, hp, hk⟩
      · rw [hk0] at hold
        exact absurd hold (by simp)
      · exact ⟨ws, code, room1, p, hev, hget, hlen, hst, hws, hp, hk⟩
  · intro hne
    rcases hchange with heq | ⟨_, code, room1, _, hget, hlen, _, _, heq⟩
    · exact absurd heq hne
    · refine ⟨code, room1, hget, hlen, ?_⟩
      intro p hp
      rw [heq]
      exact (setSticky_has lib code _ _ _).mpr (Or.inr ⟨p, hp, rfl⟩)

/-- C14, amended, at two steps.  The disconnect of Bob destroys the room
`AAAAAA`: the sticky identity of Ann is there before and after, and the map is
unchanged.  The `join_room` of Bob fills the second seat of the room `AAAAAA`:
the key of Bob is added, and the step is a `StickyUpdate`. -/
theorem sticky_only_grows_witness :
    (JsMap.has lastOneState.stickyIdentity (stickyKey asciiLib "AAAAAA" "Ann") = true ∧
        JsMap.has goneState.rooms "AAAAAA" = false ∧
        JsMap.has goneState.stickyIdentity (stickyKey asciiLib "AAAAAA" "Ann") = true ∧
        goneState.stickyIdentity = lastOneState.stickyIdentity) ∧
      JsMap.has createdState.stickyIdentity (stickyKey asciiLib "AAAAAA" "Bob") = false ∧
      JsMap.has joinedState.stickyIdentity (stickyKey asciiLib "AAAAAA" "Bob") = true ∧
      StickyUpdate asciiLib createdState joinedState
        (Event.message 2 (ClientMsg.join_room "AAAAAA" "Bob")) := by
  have hin : JsMap.has lastOneState.stickyIdentity (stickyKey asciiLib "AAAAAA" "Ann") =
      true := by decide
  obtain ⟨hkeep, hclose, _, _, _⟩ := sticky_only_grows asciiLib lastOneState goneState
    (Event.close 2) rand0 _ goneState_step
  have hout : JsMap.has createdState.stickyIdentity (stickyKey asciiLib "AAAAAA" "Bob") =
      false := by decide
  have hnew : JsMap.has joinedState.stickyIdentity (stickyKey asciiLib "AAAAAA" "Bob") =
      true := by decide
  obtain ⟨_, _, hchange, _, _⟩ := sticky_only_grows asciiLib createdState joinedState
    (Event.message 2 (ClientMsg.join_room "AAAAAA" "Bob")) rand1 _ joinedState_step
  refine ⟨⟨hin, by decide, hkeep _ hin, hclose 2 rfl⟩, hout, hnew, ?_⟩
  rcases hchange with heq | hupd
  · rw [heq, hout] at hnew
    exact absurd hnew (by simp)
  · exact hupd

/-! ## Theorems: normalized names -/

theorem trim_data (lib : StrLib) (raw : String) :
    (trim lib raw).data =
      List.rdropWhile lib.isWhiteSpace (raw.data.dropWhile lib.isWhiteSpace) := rfl

theorem trim_eq_empty_iff (lib : StrLib) (raw : String) :
    trim lib raw = "" ↔ ∀ c ∈ raw.data, lib.isWhiteSpace c = true := by
  constructor
  · intro h
    have hd : (trim lib raw).data = [] := by rw [h]
    rw [trim_data, List.rdropWhile_eq_nil_iff] at hd
    have hnil : raw.data.dropWhile lib.isWhiteSpace = [] := by
      cases hA : raw.data.dropWhile lib.isWhiteSpace with
      | nil => rfl
      | cons a rest =>
        have h1 := List.head?_dropWhile_not lib.isWhiteSpace raw.data
        rw [hA] at h1 hd
        simp only [List.head?_cons] at h1
        have h2 := hd a (List.mem_cons_self _ _)
        rw [h1] at h2
        exact absurd h2 (by simp)
    exact List.dropWhile_eq_nil_iff.mp hnil
  · intro h
    apply String.ext
    rw [trim_data, List.dropWhile_eq_nil_iff.mpr h]
    rfl

theorem makeShortId_length (d : Nat → Nat) : (makeShortId d).length = 4 := by
  simp [makeShortId, randomChars, String.length]

theorem makeShortId_chars (d : Nat → Nat) : ∀ c ∈ (makeShortId d).data, c ∈ idChars := by
  intro c hc
  simp only [makeShortId, randomChars, List.mem_map, List.mem_range] at hc
  obtain ⟨i, _, hi⟩ := hc
  have hlt : d i % idChars.length < idChars.length := Nat.mod_lt _ (by decide)
  rw [← hi, List.getD_eq_getElem _ _ hlt]
  exact List.getElem_mem hlt

/-- What `normalizeName` does guarantee: the result is never empty and has at
most 16 characters; a raw name that is empty or all white space gives
`Player-` followed by 4 characters of the id alphabet; any other raw name gives
the first 16 characters of its trimmed form, which do not start with white
space, and do not end with white space when the trimmed form has at most 16
characters. -/
theorem normalizeName_shape (lib : StrLib) (raw : String) (d : Nat → Nat) :
    normalizeName lib raw d ≠ "" ∧ (normalizeName lib raw d).length ≤ 16 ∧
      ((∀ c ∈ raw.data, lib.isWhiteSpace c = true) →
        normalizeName lib raw d = "Player-" ++ makeShortId d ∧
          (makeShortId d).length = 4 ∧ ∀ c ∈ (makeShortId d).data, c ∈ idChars) ∧
      ((∃ c ∈ raw.data, lib.isWhiteSpace c = false) →
        normalizeName lib raw d = slice16 (trim lib raw) ∧
          (∀ c, (normalizeName lib raw d).data.head? = some c →
            lib.isWhiteSpace c = false) ∧
          ((trim lib raw).length ≤ 16 →
            ∀ c, (normalizeName lib raw d).data.getLast? = some c →
              lib.isWhiteSpace c = false)) := by
  have hplayer : ("Player-" ++ makeShortId d) ≠ "" ∧
      ("Player-" ++ makeShortId d).length ≤ 16 := by
    constructor
    · intro h
      have := congrArg String.length h
      rw [String.length_append, makeShortId_length] at this
      exact absurd this (by decide)
    · rw [String.length_append, makeShortId_length]
      decide
  by_cases hblank : trim lib raw = ""
  · have hall := (trim_eq_empty_iff lib raw).mp hblank
    have hres : normalizeName lib raw d = "Player-" ++ makeShortId d := by
      simp [normalizeName, hblank]
    refine ⟨by rw [hres]; exact hplayer.1, by rw [hres]; exact hplayer.2, ?_, ?_⟩
    · intro _
      exact ⟨hres, makeShortId_length d, makeShortId_chars d⟩
    · rintro ⟨c, hc, hw⟩
      rw [hall c hc] at hw
      exact absurd hw (by simp)
  · have hT : (trim lib raw).data ≠ [] := fun h => hblank (String.ext h)
    have hclip : slice16 (trim lib raw) ≠ "" := by
      intro h
      have hd : (slice16 (trim lib raw)).data = [] := by rw [h]
      simp only [slice16, List.take_eq_nil_iff] at hd
      rcases hd with hd | hd
      · exact absurd hd (by decide)
      · exact hT hd
    have hres : normalizeName lib raw d = slice16 (trim lib raw) := by
      simp [normalizeName, hblank, hclip]
    refine ⟨by rw [hres]; exact hclip, ?_, ?_, ?_⟩
    · rw [hres]
      simp only [slice16, String.length]
      exact List.length_take_le _ _
    · intro hall
      exact absurd ((trim_eq_empty_iff lib raw).mpr hall) hblank
    · intro _
      refine ⟨hres, ?_, ?_⟩
      · intro c hc
        rw [hres] at hc
        simp only [slice16, List.head?_take] at hc
        rw [if_neg (by decide)] at hc
        obtain ⟨rest, hrest⟩ := List.rdropWhile_prefix lib.isWhiteSpace
          (raw.data.dropWhile lib.isWhiteSpace)
        rw [← trim_data] at hrest
        have hhead : (raw.data.dropWhile lib.isWhiteSpace).head? = some c := by
          rw [← hrest]
          cases hd : (trim lib raw).data with
          | nil => exact absurd hd hT
          | cons a tl =>
            rw [hd] at hc
            simpa using hc
        have hnot := List.head?_dropWhile_not lib.isWhiteSpace raw.data
        rw [hhead] at hnot
        exact hnot
      · intro hlen c hc
        rw [hres] at hc
        have htake : (slice16 (trim lib raw)).data = (trim lib raw).data :=
          List.take_of_length_le hlen
        rw [htake, trim_data] at hc
        have hne : List.rdropWhile lib.isWhiteSpace
            (raw.data.dropWhile lib.isWhiteSpace) ≠ [] := by
          rw [← trim_data]; exact hT
        rw [List.getLast?_eq_getLast _ hne, Option.some.injEq] at hc
        have hlast := List.rdropWhile_last_not lib.isWhiteSpace
          (raw.data.dropWhile lib.isWhiteSpace) hne
        rw [hc] at hlast
        simpa using hlast

/-- C13 fails on the code: the raw name `abcdefghijklmno pq` is already
trimmed, and its first 16 characters, which `normalizeName` returns, end with a
space. -/
theorem normalizeName_trailing_space :
    normalizeName asciiLib clippedRaw rand0.nameId = "abcdefghijklmno " ∧
      (normalizeName asciiLib clippedRaw rand0.nameId).length = 16 ∧
      (normalizeName asciiLib clippedRaw rand0.nameId).data.getLast? = some ' ' ∧
      asciiLib.isWhiteSpace ' ' = true ∧
      trim asciiLib (normalizeName asciiLib clippedRaw rand0.nameId) ≠
        normalizeName asciiLib clippedRaw rand0.nameId := by
  refine ⟨by decide, by decide, by decide, by decide, by decide⟩

end Xorng
